import Mathlib

/-!
Shallow embedding of the necko3-core payment-gateway store and task loops.

The Rust source keeps two store backends with the same interface: the
in-memory `MockDatabase` (src/db/mock.rs), whose maps we model as
association lists, and `Postgres` (src/db/postgres.rs), whose `payments`
table we model as a list of rows with the conflict key used by its
`ON CONFLICT` clause.  Machine integers are modelled as `Nat`; 256-bit
amounts (`U256`) wrap modulo `U256_SIZE` where the source adds them.
Time (`chrono::Utc::now`) is passed in explicitly as a `now : Nat`
argument wherever the source reads the clock, and generated UUIDs
(`uuid::Uuid::new_v4`) are modelled by a deterministic fresh-name counter
carried in the state.
-/

/-- Size of the `U256` value space: additions on `paid_raw` in the source
are 256-bit and wrap at this bound (release semantics of `+=`). -/
def U256_SIZE : Nat := 2 ^ 256

/-- `InvoiceStatus` from src/model.rs. -/
inductive InvoiceStatus where
  | Pending
  | Paid
  | Expired
deriving DecidableEq, Repr

/-- `PaymentStatus` from src/model.rs. -/
inductive PaymentStatus where
  | Confirming
  | Confirmed
deriving DecidableEq, Repr

/-- `WebhookStatus` from src/model.rs. -/
inductive WebhookStatus where
  | Pending
  | Processing
  | Sent
  | Failed
deriving DecidableEq, Repr

/-- `ChainType` from src/model.rs (one family supported). -/
inductive ChainType where
  | EVM
deriving DecidableEq, Repr

/-- `TokenConfig` from src/model.rs. -/
structure TokenConfig where
  symbol : String
  contract : String
  decimals : Nat
deriving DecidableEq, Repr

/-- `ChainConfig` from src/model.rs.  The `watch_addresses` and `tokens`
hash sets are modelled as lists; the human-oriented fields are kept
verbatim. -/
structure ChainConfig where
  name : String
  rpc_url : String
  chain_type : ChainType
  xpub : String
  native_symbol : String
  decimals : Nat
  last_processed_block : Nat
  block_lag : Nat
  required_confirmations : Nat
  watch_addresses : List String
  tokens : List TokenConfig
deriving DecidableEq, Repr

/-- `PartialChainUpdate` from src/model.rs: the five optional fields an
admin may patch on a chain. -/
structure ChainUpdate where
  rpc_url : Option String
  last_processed_block : Option Nat
  xpub : Option String
  block_lag : Option Nat
  required_confirmations : Option Nat
deriving DecidableEq, Repr

/-- `Invoice` from src/model.rs.  `amount`/`paid` are the human-readable
decimal strings the source keeps next to the raw integer amounts. -/
structure Invoice where
  id : String
  address_index : Nat
  address : String
  amount : String
  amount_raw : Nat
  paid : String
  paid_raw : Nat
  token : String
  network : String
  decimals : Nat
  webhook_url : Option String
  webhook_secret : Option String
  created_at : Nat
  expires_at : Nat
  status : InvoiceStatus
deriving DecidableEq, Repr

/-- `Payment` from src/model.rs (the struct has no `log_index` field).
`fromAddr`/`toAddr` stand for the fields `from`/`to` of the source. -/
structure Payment where
  id : String
  invoice_id : String
  fromAddr : String
  toAddr : String
  network : String
  tx_hash : String
  amount_raw : Nat
  block_number : Nat
  status : PaymentStatus
  created_at : Nat
deriving DecidableEq, Repr

/-- Association-list read: first value bound to the key (models a hash-map
`get`). -/
def mapGet (k : String) (l : List (String × α)) : Option α :=
  (l.find? (fun e => e.fst = k)).map (·.snd)

/-- Association-list in-place update of the first entry bound to the key
(models a hash-map `get_mut`). -/
def mapSet (k : String) (f : α → α) : List (String × α) → List (String × α)
  | [] => []
  | e :: rest => if e.fst = k then (e.fst, f e.snd) :: rest else e :: mapSet k f rest

/-- Update the first list element satisfying the predicate (models
`iter_mut().find(p)` followed by a mutation of the found element). -/
def updateFirst (p : α → Bool) (f : α → α) : List α → List α
  | [] => []
  | a :: rest => if p a then f a :: rest else a :: updateFirst p f rest

/-!
### `get_free_slot` (src/state/mod.rs, lines 74-93)

`AppState::get_free_slot` fetches the busy `address_index` list of
Pending invoices of a chain and scans `0..=busy_indexes.len() as u32` for the
first index not contained in it, returning `None` after the loop.  The
`as u32` cast of the length is kept as a `% 2 ^ 32`.
-/

/-- The `for i in 0..=len { if !busy.contains(i) { return Some(i) } }`
scan, over an explicit candidate list. -/
def freeSlotScan (busy : List Nat) : List Nat → Option Nat
  | [] => none
  | i :: rest => if i ∈ busy then freeSlotScan busy rest else some i

/-- `AppState::get_free_slot`, given the busy-index list that
`get_busy_indexes` returned. -/
def get_free_slot (busy : List Nat) : Option Nat :=
  freeSlotScan busy (List.range (busy.length % 2 ^ 32 + 1))

theorem freeSlotScan_append (busy l1 l2 : List Nat) :
    freeSlotScan busy (l1 ++ l2) =
      (freeSlotScan busy l1).or (freeSlotScan busy l2) := by
  induction l1 with
  | nil => simp [freeSlotScan, Option.or]
  | cons i rest ih =>
      by_cases h : i ∈ busy <;> simp [freeSlotScan, h, ih, Option.or]

theorem freeSlotScan_eq_none (busy l : List Nat) :
    freeSlotScan busy l = none ↔ ∀ x ∈ l, x ∈ busy := by
  induction l with
  | nil => simp [freeSlotScan]
  | cons i rest ih =>
      by_cases h : i ∈ busy <;> simp [freeSlotScan, h, ih]

theorem freeSlotScan_range_spec (busy : List Nat) (n k : Nat)
    (h : freeSlotScan busy (List.range n) = some k) :
    k ∉ busy ∧ ∀ j < k, j ∈ busy := by
  induction n with
  | zero => simp [List.range_zero, freeSlotScan] at h
  | succ m ih =>
      rw [List.range_succ, freeSlotScan_append] at h
      cases hm : freeSlotScan busy (List.range m) with
      | some a =>
          rw [hm] at h
          simp [Option.or] at h
          subst h
          exact ih hm
      | none =>
          rw [hm] at h
          simp only [Option.or] at h
          by_cases hmem : m ∈ busy
          · simp [freeSlotScan, hmem] at h
          · simp [freeSlotScan, hmem] at h
            subst h
            refine ⟨hmem, ?_⟩
            intro j hj
            exact (freeSlotScan_eq_none busy _).mp hm j (List.mem_range.mpr hj)

theorem freeSlotScan_range_isSome (busy : List Nat) (n : Nat)
    (h : ∃ x, x < n ∧ x ∉ busy) :
    (freeSlotScan busy (List.range n)).isSome = true := by
  cases hs : freeSlotScan busy (List.range n) with
  | some a => rfl
  | none =>
      rcases h with ⟨x, hx, hxnot⟩
      exact absurd ((freeSlotScan_eq_none busy _).mp hs x (List.mem_range.mpr hx)) hxnot

/-- Pigeonhole: a list of naturals cannot contain every value in
`0..=length`. -/
theorem exists_notMem_le_length (busy : List Nat) :
    ∃ x ≤ busy.length, x ∉ busy := by
  by_contra hall
  push_neg at hall
  have hsub : Finset.range (busy.length + 1) ⊆ busy.toFinset := by
    intro x hx
    rw [Finset.mem_range, Nat.lt_succ_iff] at hx
    exact List.mem_toFinset.mpr (hall x hx)
  have hcard := Finset.card_le_card hsub
  rw [Finset.card_range] at hcard
  have hle := busy.toFinset_card_le
  omega

/-- C6: whenever `get_busy_indexes` succeeds with list `busy` (of any
shape, `length < 2 ^ 32` so the `as u32` cast is lossless),
`get_free_slot` returns `some k` with `k` the least natural number not in
`busy`; the trailing `None` fallback is never taken. -/
theorem get_free_slot_min (busy : List Nat) (hlen : busy.length < 2 ^ 32) :
    ∃ k, get_free_slot busy = some k ∧ k ∉ busy ∧ ∀ j < k, j ∈ busy := by
  have hmod : busy.length % 2 ^ 32 = busy.length := Nat.mod_eq_of_lt hlen
  rcases exists_notMem_le_length busy with ⟨x, hxle, hxnot⟩
  have hsome := freeSlotScan_range_isSome busy (busy.length + 1)
    ⟨x, Nat.lt_succ_of_le hxle, hxnot⟩
  rcases Option.isSome_iff_exists.mp hsome with ⟨k, hk⟩
  refine ⟨k, ?_, (freeSlotScan_range_spec busy _ _ hk).1,
    (freeSlotScan_range_spec busy _ _ hk).2⟩
  rw [get_free_slot, hmod]
  exact hk

/-- C6 witness: on the non-contiguous busy list `[1, 0, 3]` the slot
search returns `2`, the least absent index. -/
theorem get_free_slot_min_witness :
    [1, 0, 3].length < 2 ^ 32 ∧
      ∃ k, get_free_slot [1, 0, 3] = some k ∧ k ∉ [1, 0, 3] ∧
        ∀ j < k, j ∈ [1, 0, 3] := by
  exact ⟨by norm_num, get_free_slot_min [1, 0, 3] (by norm_num)⟩

/-!
### The in-memory store (src/db/mock.rs)

`MockDatabase` keeps `invoices`, `payments` and `webhooks` in hash maps;
we model each map as an association list in insertion order.  Its
`payments` map is keyed by `invoice_id` (the source comment on the field
says so), so the mock holds at most one payment row per invoice.
Generated v4 UUIDs are modelled by the `nextUuid` counter; `Utc::now()`
is the explicit `now` argument.
-/

/-- `WebhookEvent` from src/model.rs. -/
inductive WebhookEvent where
  | TxDetected (invoice_id tx_hash amount currency : String)
  | TxConfirmed (invoice_id tx_hash : String) (confirmations : Nat)
  | InvoicePaid (invoice_id paid_amount : String)
  | InvoiceExpired (invoice_id : String)
deriving DecidableEq, Repr

/-- `MockWebhook` from src/db/mock.rs. -/
structure MockWebhook where
  id : String
  invoice_id : String
  url : String
  payload : WebhookEvent
  status : WebhookStatus
  attempts : Nat
  max_retries : Nat
  next_retry : Nat
deriving DecidableEq, Repr

/-- The leased job view `WebhookJob` from src/model.rs (`payload` is the
JSON-wrapped event, `secret_key` the webhook secret of the invoice). -/
structure WebhookJob where
  id : String
  url : String
  secret_key : String
  payload : WebhookEvent
  attempts : Nat
  max_retries : Nat
deriving DecidableEq, Repr

/-- The `MockDatabase` state. -/
structure MockState where
  invoices : List (String × Invoice)
  payments : List (String × Payment)
  webhooks : List (String × MockWebhook)
  nextUuid : Nat
deriving DecidableEq, Repr

/-- Deterministic stand-in for `uuid::Uuid::new_v4().to_string()`. -/
def freshUuid (n : Nat) : String := "uuid-" ++ toString n

/-- The empty store, `MockDatabase::new()`. -/
def mockInit : MockState := { invoices := [], payments := [], webhooks := [], nextUuid := 0 }

/-- `alloy::primitives::utils::format_units(v, d)`: the human decimal
string with `d` fractional digits.  (alloy returns an error for
`d > 77`; callers that hit that path are modelled separately.) -/
def formatUnits (v d : Nat) : String :=
  if d = 0 then toString v
  else
    let frac := toString (v % 10 ^ d)
    let pad := String.mk (List.replicate (d - frac.length) '0')
    toString (v / 10 ^ d) ++ "." ++ pad ++ frac

/-- `MockDatabase::add_invoice`: fails (state unchanged) when the id is
already present, otherwise stores the given invoice as is. -/
def mock_add_invoice (st : MockState) (inv : Invoice) : Option MockState :=
  if (mapGet inv.id st.invoices).isSome then none
  else some { st with invoices := st.invoices ++ [(inv.id, inv)] }

/-- `MockDatabase::add_payment_attempt` (src/db/mock.rs, lines 435-463).
The implementation takes no `log_index` argument; it keys `payments` by
`invoice_id`: if the invoice already has a payment entry only its
`block_number` is overwritten, otherwise a fresh row with status
`Confirming` is inserted. -/
def mock_add_payment_attempt (st : MockState) (invoice_id fromAddr toAddr tx_hash : String)
    (amount_raw block_number : Nat) (network : String) (now : Nat) : MockState :=
  if (mapGet invoice_id st.payments).isSome then
    { st with payments :=
        mapSet invoice_id (fun p => { p with block_number := block_number }) st.payments }
  else
    { st with
      payments := st.payments ++ [(invoice_id,
        { id := freshUuid st.nextUuid, invoice_id := invoice_id,
          fromAddr := fromAddr, toAddr := toAddr, network := network,
          tx_hash := tx_hash, amount_raw := amount_raw,
          block_number := block_number, status := PaymentStatus.Confirming,
          created_at := now })],
      nextUuid := st.nextUuid + 1 }

/-- `MockDatabase::finalize_payment` (src/db/mock.rs, lines 472-497).
Marks the first payment whose `id` matches as `Confirmed` (no status
guard in the source), then credits the invoice: `paid_raw` is bumped by
the payment amount (256-bit wrapping add) and, when `format_units`
succeeds (`decimals ≤ 77`), `paid` is re-rendered and the invoice is
marked `Paid` when `paid_raw ≥ amount_raw`.  Error paths return `none`
as the flag but keep the mutations the source had already applied. -/
def mock_finalize_payment (st : MockState) (payment_id : String) : MockState × Option Bool :=
  match st.payments.find? (fun e => e.snd.id = payment_id) with
  | none => (st, none)
  | some e =>
    let p := e.snd
    let confirmed :=
      updateFirst (fun e2 => e2.snd.id = payment_id)
        (fun e2 => (e2.fst, { e2.snd with status := PaymentStatus.Confirmed })) st.payments
    let st1 := { st with payments := confirmed }
    match mapGet p.invoice_id st.invoices with
    | none => (st1, none)
    | some inv =>
      let paid' := (inv.paid_raw + p.amount_raw) % U256_SIZE
      if inv.decimals ≤ 77 then
        let inv1 := { inv with paid_raw := paid', paid := formatUnits paid' inv.decimals }
        if inv.amount_raw ≤ paid' then
          let credited :=
            mapSet p.invoice_id (fun _ => { inv1 with status := InvoiceStatus.Paid }) st1.invoices
          ({ st1 with invoices := credited }, some true)
        else
          let credited := mapSet p.invoice_id (fun _ => inv1) st1.invoices
          ({ st1 with invoices := credited }, some false)
      else
        let credited :=
          mapSet p.invoice_id (fun _ => { inv with paid_raw := paid' }) st1.invoices
        ({ st1 with invoices := credited }, none)

/-- `MockDatabase::update_payment_block`: the source does
`self.payments.get_mut(payment_id).unwrap()`, a keyed lookup (the map is
keyed by invoice id); the panic on a missing key is modelled as `none`. -/
def mock_update_payment_block (st : MockState) (payment_id : String) (block_num : Nat) :
    Option MockState :=
  if (mapGet payment_id st.payments).isSome then
    let updated := mapSet payment_id (fun p => { p with block_number := block_num }) st.payments
    some { st with payments := updated }
  else none

/-- `MockDatabase::set_invoice_status`. -/
def mock_set_invoice_status (st : MockState) (uuid : String) (status : InvoiceStatus) :
    Option MockState :=
  if (mapGet uuid st.invoices).isSome then
    some { st with invoices := mapSet uuid (fun i => { i with status := status }) st.invoices }
  else none

/-- `MockDatabase::get_pending_invoice_by_address` (src/db/mock.rs, lines
387-393): linear scan for an invoice whose `network`, `address` (plain
string equality) and `Pending` status all match. -/
def mock_get_pending_invoice_by_address (st : MockState) (chain_name address : String) :
    Option Invoice :=
  (st.invoices.map (·.snd)).find?
    (fun inv => inv.network = chain_name ∧ inv.address = address ∧
      inv.status = InvoiceStatus.Pending)

/-- `MockDatabase::get_busy_indexes`: `address_index` of the Pending
invoices of the chain. -/
def mock_get_busy_indexes (st : MockState) (chain_name : String) : List Nat :=
  ((st.invoices.map (·.snd)).filter
    (fun i => i.status = InvoiceStatus.Pending ∧ i.network = chain_name)).map (·.address_index)

/-- `MockDatabase::add_webhook_job`: errors when the invoice is missing,
silently skips when it has no `webhook_url`, otherwise enqueues a fresh
Pending job with `attempts = 0`, `max_retries = 10`, `next_retry = now`. -/
def mock_add_webhook_job (st : MockState) (invoice_id : String) (event : WebhookEvent)
    (now : Nat) : Option MockState :=
  match mapGet invoice_id st.invoices with
  | none => none
  | some inv =>
    match inv.webhook_url with
    | none => some st
    | some url =>
      let job_id := freshUuid st.nextUuid
      some { st with
        webhooks := st.webhooks ++ [(job_id,
          { id := job_id, invoice_id := invoice_id, url := url,
            payload := event, status := WebhookStatus.Pending,
            attempts := 0, max_retries := 10, next_retry := now })],
        nextUuid := st.nextUuid + 1 }

/-- `MockDatabase::set_webhook_status`. -/
def mock_set_webhook_status (st : MockState) (id : String) (status : WebhookStatus) :
    Option MockState :=
  if (mapGet id st.webhooks).isSome then
    some { st with webhooks := mapSet id (fun j => { j with status := status }) st.webhooks }
  else none

/-- `MockDatabase::schedule_webhook_retry` (src/db/mock.rs, lines
547-556): back to `Pending`, store the new attempt count, and set
`next_retry = now + delay`. -/
def mock_schedule_webhook_retry (st : MockState) (id : String) (attempts : Nat)
    (next_retry_in_secs : Nat) (now : Nat) : Option MockState :=
  if (mapGet id st.webhooks).isSome then
    let updated :=
      mapSet id (fun j => { j with
        status := WebhookStatus.Pending,
        attempts := attempts,
        next_retry := now + next_retry_in_secs }) st.webhooks
    some { st with webhooks := updated }
  else none

/-!
### Watcher (src/state/watcher.rs)

One event at a time: look up the Pending invoice for `(network, to)`,
drop mismatching network/token, record the payment attempt, and enqueue a
`TxDetected` webhook job whenever `add_payment_attempt` returned `Ok`
(which the mock always does), regardless of which upsert path was taken.
The watcher passes the `log_index` of the event, but the store
implementations take no such parameter, so it is dropped here as there.
-/

/-- `PaymentEvent` as built by the EVM ingestor (src/chain/evm.rs):
includes the optional `log_index` (`none` for native transfers). -/
structure PaymentEvent where
  network : String
  tx_hash : String
  fromAddr : String
  toAddr : String
  token : String
  amount : String
  amount_raw : Nat
  decimals : Nat
  block_number : Nat
  log_index : Option Nat
deriving DecidableEq, Repr

/-- One iteration of the invoice-watcher loop (src/state/watcher.rs,
lines 28-97) against the mock store. -/
def watcher_process_event (st : MockState) (event : PaymentEvent) (now : Nat) : MockState :=
  match mock_get_pending_invoice_by_address st event.network event.toAddr with
  | none => st
  | some invoice =>
    if event.network ≠ invoice.network ∨ event.token ≠ invoice.token then st
    else
      let st1 := mock_add_payment_attempt st invoice.id event.fromAddr event.toAddr
        event.tx_hash event.amount_raw event.block_number event.network now
      match mock_add_webhook_job st1 invoice.id
        (WebhookEvent.TxDetected invoice.id event.tx_hash event.amount event.token) now with
      | some st2 => st2
      | none => st1

/-!
### Webhook dispatcher retry (src/state/webhook.rs, lines 125-153)
-/

/-- `handle_retry`: bump the attempt counter; at or past `max_retries`
mark the job `Failed`, otherwise reschedule it `Pending` with a
`2 ^ attempts'`-second delay (`2_u64.pow`, wrapping at 64 bits). -/
def handle_retry (st : MockState) (job : WebhookJob) (now : Nat) : Option MockState :=
  let new_attempts := job.attempts + 1
  if job.max_retries ≤ new_attempts then
    mock_set_webhook_status st job.id WebhookStatus.Failed
  else
    mock_schedule_webhook_retry st job.id new_attempts (2 ^ new_attempts % 2 ^ 64) now

/-!
### The Postgres `payments` table (src/db/postgres.rs, lines 886-909)

`Postgres::add_payment_attempt` runs
`INSERT INTO payments ... ON CONFLICT (invoice_id, tx_hash) DO UPDATE SET
block_number = excluded.block_number`.  The implementation takes no
`log_index` argument and the insert writes no such column.  Rows carry a
server-generated id, modelled as a counter; the unique constraint behind
the conflict target means at most one row can match, so the update
touches the first (only) matching row.
-/

/-- A row of the `payments` table. -/
structure PgPayment where
  id : Nat
  invoice_id : String
  fromAddr : String
  toAddr : String
  network : String
  tx_hash : String
  amount_raw : Nat
  block_number : Nat
  status : PaymentStatus
deriving DecidableEq, Repr

/-- The `payments` table plus the id generator. -/
structure PgPayments where
  rows : List PgPayment
  nextId : Nat
deriving DecidableEq, Repr

/-- `Postgres::add_payment_attempt`. -/
def pg_add_payment_attempt (tbl : PgPayments) (invoice_id fromAddr toAddr tx_hash network : String)
    (amount_raw block_number : Nat) : PgPayments :=
  if tbl.rows.any (fun r => r.invoice_id = invoice_id ∧ r.tx_hash = tx_hash) then
    let updated :=
      updateFirst (fun r => r.invoice_id = invoice_id ∧ r.tx_hash = tx_hash)
        (fun r => { r with block_number := block_number }) tbl.rows
    { tbl with rows := updated }
  else
    { rows := tbl.rows ++ [{
        id := tbl.nextId, invoice_id := invoice_id, fromAddr := fromAddr,
        toAddr := toAddr, network := network, tx_hash := tx_hash,
        amount_raw := amount_raw, block_number := block_number,
        status := PaymentStatus.Confirming }],
      nextId := tbl.nextId + 1 }

/-!
### EVM ingestor send loops (src/chain/evm.rs)

The per-block native-transfer and token-log loops.  RPC fetching,
retries and byte-level address/hex parsing happen before these loops and
are abstracted into the already-parsed inputs; the channel is modelled
by `receiverAlive` (`sender.send` fails exactly when the watcher side is
dropped).  Each emission is returned as the built event together with
its send result, in program order.
-/

/-- A transaction of a fetched block, after JSON field extraction:
`toAddr = none` models a `to` field that is absent or unparsable. -/
structure EvmTx where
  toAddr : Option String
  fromAddr : String
  hash : String
  value : Nat
deriving DecidableEq, Repr

/-- A decoded `Transfer(address,address,uint256)` log. -/
structure TransferLog where
  contract : String
  fromAddr : String
  toAddr : String
  value : Nat
  txHash : Option String
  blockNumber : Option Nat
  logIndex : Option Nat
deriving DecidableEq, Repr

/-- `EvmBlockchain::process_transactions` (src/chain/evm.rs, lines
366-424): for each transaction paying a watched address a positive
native value, build the event and attempt the channel send; a failed
send is only logged (lines 416-418) and the loop continues, finally
returning `Ok`. -/
def evm_process_transactions (receiverAlive : Bool) (txs : List EvmTx)
    (addresses : List String) (decimals : Nat) (native_symbol : String)
    (block_num : Nat) (chain_name : String) : List (PaymentEvent × Bool) :=
  match txs with
  | [] => []
  | tx :: rest =>
    let tail := evm_process_transactions receiverAlive rest addresses decimals
      native_symbol block_num chain_name
    match tx.toAddr with
    | none => tail
    | some t =>
      if t ∈ addresses ∧ 0 < tx.value then
        ({ network := chain_name, tx_hash := tx.hash, fromAddr := tx.fromAddr,
           toAddr := t, token := native_symbol,
           amount := if decimals ≤ 77 then formatUnits tx.value decimals else "",
           amount_raw := tx.value, decimals := decimals,
           block_number := block_num, log_index := none }, receiverAlive) :: tail
      else tail

/-- The emission loop of `EvmBlockchain::process_logs` (src/chain/evm.rs,
lines 315-361), over the logs the (retried) `eth_getLogs` call returned:
logs from unknown contracts are skipped, transfers to watched addresses
are emitted with the symbol/decimals of the token and the `log_index`
of the log;
a failed send is only logged (lines 356-358) and the loop continues. -/
def evm_process_logs (receiverAlive : Bool) (logs : List TransferLog)
    (token_map : List (String × TokenConfig)) (addresses : List String)
    (chain_name : String) : List (PaymentEvent × Bool) :=
  match logs with
  | [] => []
  | log :: rest =>
    let tail := evm_process_logs receiverAlive rest token_map addresses chain_name
    match mapGet log.contract token_map with
    | none => tail
    | some tc =>
      if log.toAddr ∈ addresses then
        ({ network := chain_name, tx_hash := log.txHash.getD "",
           fromAddr := log.fromAddr, toAddr := log.toAddr, token := tc.symbol,
           amount := if tc.decimals ≤ 77 then formatUnits log.value tc.decimals else "",
           amount_raw := log.value, decimals := tc.decimals,
           block_number := log.blockNumber.getD (2 ^ 64 - 1),
           log_index := log.logIndex }, receiverAlive) :: tail
      else tail

/-!
### Webhook signing and POST (src/state/webhook.rs, lines 64-104)

`hmac::Hmac<Sha256>` and `serde_json::to_string` are library calls; the
MAC and the serializer are taken as parameters, so the theorems hold for
whatever functions those crates implement.  `hex::encode` (lowercase
byte-to-hex) is implemented here.
-/

/-- A lowercase hexadecimal digit: `0`-`9` or `a`-`f`. -/
def isLowerHexDigit (c : Char) : Prop :=
  (48 ≤ c.toNat ∧ c.toNat ≤ 57) ∨ (97 ≤ c.toNat ∧ c.toNat ≤ 102)

instance (c : Char) : Decidable (isLowerHexDigit c) := by
  unfold isLowerHexDigit
  infer_instance

/-- One lowercase hex digit, by codepoint arithmetic as the hex crate
renders it: digits start at codepoint 48, letters at 97. -/
def hexDigitChar (n : Nat) : Char :=
  if n % 16 < 10 then Char.ofNat (48 + n % 16) else Char.ofNat (87 + n % 16)

/-- `hex::encode`: two lowercase hex digits per byte. -/
def hexEncode (bytes : List Nat) : String :=
  String.mk (bytes.foldr (fun b acc => hexDigitChar (b / 16) :: hexDigitChar b :: acc) [])

/-- `generate_signature(timestamp, secret, body)`: lowercase hex of the
MAC over `timestamp ++ "." ++ body`, keyed by the secret. -/
def generate_signature (hmacSha256 : String → String → List Nat)
    (timestamp secret body : String) : String :=
  hexEncode (hmacSha256 secret (timestamp ++ "." ++ body))

/-- The outgoing POST request of `process_webhook`. -/
structure HttpPost where
  url : String
  contentType : String
  timestampHeader : String
  signatureHeader : String
  body : String
  timeoutSecs : Nat
deriving DecidableEq, Repr

/-- The request-building half of `process_webhook` (src/state/webhook.rs,
lines 77-104): serialize the payload, sign `timestamp.body`, and POST
with the `X-Webhook-Timestamp` and `X-Webhook-Signature` headers. -/
def process_webhook_request (hmacSha256 : String → String → List Nat)
    (serializeJson : WebhookEvent → String) (now : Nat) (job : WebhookJob) : HttpPost :=
  let nowStr := toString now
  let body_string := serializeJson job.payload
  let signature := generate_signature hmacSha256 nowStr job.secret_key body_string
  { url := job.url, contentType := "application/json",
    timestampHeader := nowStr, signatureHeader := signature,
    body := body_string, timeoutSecs := 10 }

/-!
### Partial chain update (src/db/mock.rs, lines 120-149)

`MockDatabase::update_chain_partial` patches the cached config of an
existing chain in place: each of the five optional fields is written only when
present.  (`Postgres::update_chain_partial` runs the matching `COALESCE`
update over the same five columns and then patches its cache with this
same code.)
-/

/-- The five conditional field writes, in source order. -/
def applyChainFieldUpdates (cc : ChainConfig) (u : ChainUpdate) : ChainConfig :=
  let cc1 := match u.xpub with
    | some x => { cc with xpub := x }
    | none => cc
  let cc2 := match u.rpc_url with
    | some x => { cc1 with rpc_url := x }
    | none => cc1
  let cc3 := match u.last_processed_block with
    | some x => { cc2 with last_processed_block := x }
    | none => cc2
  let cc4 := match u.block_lag with
    | some x => { cc3 with block_lag := x }
    | none => cc3
  match u.required_confirmations with
    | some x => { cc4 with required_confirmations := x }
    | none => cc4

/-- `MockDatabase::update_chain_partial` over the chain map: error when
the chain does not exist, otherwise patch its config. -/
def mock_update_chain (chains : List (String × ChainConfig)) (chain_name : String)
    (u : ChainUpdate) : Option (List (String × ChainConfig)) :=
  if (mapGet chain_name chains).isSome then
    some (mapSet chain_name (fun cc => applyChainFieldUpdates cc u) chains)
  else none

/-!
### Association-list lemmas
-/

theorem mapGet_eq_none_iff (k : String) (l : List (String × α)) :
    mapGet k l = none ↔ ∀ e ∈ l, e.fst ≠ k := by
  constructor
  · intro h e he hk
    cases hf : l.find? (fun e => e.fst = k) with
    | some a => rw [mapGet, hf] at h; simp at h
    | none => exact absurd (List.find?_eq_none.mp hf e he) (by simp [hk])
  · intro h
    cases hf : l.find? (fun e => e.fst = k) with
    | none => simp [mapGet, hf]
    | some a =>
        have ha := List.mem_of_find?_eq_some hf
        have hak : a.fst = k := by simpa using List.find?_some hf
        exact absurd hak (h a ha)

theorem mapGet_isSome_iff (k : String) (l : List (String × α)) :
    (mapGet k l).isSome = true ↔ ∃ e ∈ l, e.fst = k := by
  cases hf : l.find? (fun e => e.fst = k) with
  | none =>
      simp only [mapGet, hf, Option.map_none', Option.isSome_none]
      constructor
      · intro h; cases h
      · rintro ⟨e, he, hk⟩
        exact absurd (List.find?_eq_none.mp hf e he) (by simp [hk])
  | some a =>
      simp only [mapGet, hf, Option.map_some', Option.isSome_some]
      constructor
      · intro _
        exact ⟨a, List.mem_of_find?_eq_some hf, by simpa using List.find?_some hf⟩
      · intro _; trivial

theorem mapGet_mapSet_self (k : String) (f : α → α) (l : List (String × α)) :
    mapGet k (mapSet k f l) = (mapGet k l).map f := by
  induction l with
  | nil => rfl
  | cons e rest ih =>
      by_cases h : e.fst = k
      · simp [mapGet, mapSet, h, List.find?_cons]
      · simp only [mapGet, mapSet, if_neg h, List.find?_cons,
          show (decide (e.fst = k)) = false from by simp [h]]
        simpa [mapGet] using ih

theorem mapGet_mapSet_ne (k' k : String) (f : α → α) (l : List (String × α))
    (h : k' ≠ k) : mapGet k' (mapSet k f l) = mapGet k' l := by
  induction l with
  | nil => rfl
  | cons e rest ih =>
      by_cases he : e.fst = k
      · have hne : ¬ (e.fst = k') := fun hh => h (hh ▸ he)
        have hkk : ¬ (k = k') := fun hh => h hh.symm
        simp [mapGet, mapSet, he, List.find?_cons, hne, hkk]
      · by_cases he' : e.fst = k'
        · simp [mapGet, mapSet, he, he', List.find?_cons, h]
        · simp only [mapGet, mapSet, if_neg he, List.find?_cons,
            show (decide (e.fst = k')) = false from by simp [he']]
          simpa [mapGet] using ih

theorem mapGet_append (k : String) (l1 l2 : List (String × α)) :
    mapGet k (l1 ++ l2) = (mapGet k l1).or (mapGet k l2) := by
  unfold mapGet
  rw [List.find?_append]
  cases List.find? (fun e => e.fst = k) l1 <;> simp [Option.or]

theorem mapSet_map_fst (k : String) (f : α → α) (l : List (String × α)) :
    (mapSet k f l).map Prod.fst = l.map Prod.fst := by
  induction l with
  | nil => rfl
  | cons e rest ih =>
      by_cases h : e.fst = k <;> simp [mapSet, h, ih]

theorem mem_mapSet (k : String) (f : α → α) (l : List (String × α)) :
    ∀ e ∈ mapSet k f l, e ∈ l ∨ ∃ e0 ∈ l, e0.fst = e.fst ∧ e.snd = f e0.snd := by
  induction l with
  | nil => intro e he; simp [mapSet] at he
  | cons e0 rest ih =>
      intro e he
      by_cases h : e0.fst = k
      · rw [mapSet, if_pos h] at he
        rcases List.mem_cons.mp he with he1 | he2
        · exact Or.inr ⟨e0, List.mem_cons_self _ _, by simp [he1]⟩
        · exact Or.inl (List.mem_cons_of_mem _ he2)
      · rw [mapSet, if_neg h] at he
        rcases List.mem_cons.mp he with he1 | he2
        · exact Or.inl (he1 ▸ List.mem_cons_self _ _)
        · rcases ih e he2 with h1 | ⟨e1, he1, hfst, hsnd⟩
          · exact Or.inl (List.mem_cons_of_mem _ h1)
          · exact Or.inr ⟨e1, List.mem_cons_of_mem _ he1, hfst, hsnd⟩

theorem find?_split_updateFirst (p : α → Bool) (f : α → α) (l : List α) (a : α)
    (h : l.find? p = some a) :
    ∃ l1 l2, l = l1 ++ a :: l2 ∧ (∀ x ∈ l1, p x = false) ∧
      updateFirst p f l = l1 ++ f a :: l2 := by
  induction l with
  | nil => simp at h
  | cons b rest ih =>
      rw [List.find?_cons] at h
      cases hb : p b with
      | true =>
          rw [hb] at h
          simp at h
          subst h
          exact ⟨[], rest, by simp, by simp, by simp [updateFirst, hb]⟩
      | false =>
          rw [hb] at h
          rcases ih h with ⟨l1, l2, hsplit, hnone, hupd⟩
          exact ⟨b :: l1, l2, by simp [hsplit], by
            intro x hx
            rcases List.mem_cons.mp hx with h1 | h2
            · exact h1 ▸ hb
            · exact hnone x h2, by simp [updateFirst, hb, hupd]⟩

/-!
### C10 — frame of the partial chain update
-/

/-- C10: for an existing chain, `update_chain_partial` patches at most the
five optional fields (`rpc_url`, `last_processed_block`, `xpub`,
`block_lag`, `required_confirmations`), each only when present in the
update; its `name`, `chain_type`, `native_symbol`, `decimals`,
watch-address set and token set are untouched, and the config of every
other chain is unchanged. -/
theorem update_chain_frame (chains : List (String × ChainConfig))
    (chain_name : String) (u : ChainUpdate) (cc : ChainConfig)
    (h : mapGet chain_name chains = some cc) :
    ∃ chains', mock_update_chain chains chain_name u = some chains' ∧
      mapGet chain_name chains' = some { cc with
        rpc_url := u.rpc_url.getD cc.rpc_url,
        last_processed_block := u.last_processed_block.getD cc.last_processed_block,
        xpub := u.xpub.getD cc.xpub,
        block_lag := u.block_lag.getD cc.block_lag,
        required_confirmations := u.required_confirmations.getD cc.required_confirmations } ∧
      (∀ cfg', mapGet chain_name chains' = some cfg' →
        cfg'.name = cc.name ∧ cfg'.chain_type = cc.chain_type ∧
        cfg'.native_symbol = cc.native_symbol ∧ cfg'.decimals = cc.decimals ∧
        cfg'.watch_addresses = cc.watch_addresses ∧ cfg'.tokens = cc.tokens) ∧
      (∀ k, k ≠ chain_name → mapGet k chains' = mapGet k chains) := by
  have happly : applyChainFieldUpdates cc u = { cc with
      rpc_url := u.rpc_url.getD cc.rpc_url,
      last_processed_block := u.last_processed_block.getD cc.last_processed_block,
      xpub := u.xpub.getD cc.xpub,
      block_lag := u.block_lag.getD cc.block_lag,
      required_confirmations := u.required_confirmations.getD cc.required_confirmations } := by
    rcases u with ⟨r, l, x, b, rc⟩
    cases r <;> cases l <;> cases x <;> cases b <;> cases rc <;> rfl
  have hsome : (mapGet chain_name chains).isSome = true := by rw [h]; rfl
  refine ⟨mapSet chain_name (fun cc => applyChainFieldUpdates cc u) chains, ?_, ?_, ?_, ?_⟩
  · rw [mock_update_chain, if_pos hsome]
  · rw [mapGet_mapSet_self, h, Option.map_some', happly]
  · intro cfg' hcfg'
    rw [mapGet_mapSet_self, h, Option.map_some', happly] at hcfg'
    injection hcfg' with hcfg'
    subst hcfg'
    exact ⟨rfl, rfl, rfl, rfl, rfl, rfl⟩
  · intro k hk
    exact mapGet_mapSet_ne k chain_name _ chains hk

/-- A concrete chain config used by witnesses. -/
def ccEth : ChainConfig :=
  { name := "eth-test", rpc_url := "http:rpc-old", chain_type := ChainType.EVM,
    xpub := "xpub-old", native_symbol := "ETH", decimals := 18,
    last_processed_block := 100, block_lag := 2, required_confirmations := 3,
    watch_addresses := ["0xaaa"], tokens := [{ symbol := "USDT", contract := "0xccc", decimals := 6 }] }

/-- C10 witness: patching `rpc_url` and `block_lag` of an existing chain
leaves everything else of it, and the other chain, unchanged. -/
theorem update_chain_frame_witness :
    ∃ chains', mock_update_chain [("eth-test", ccEth), ("sol", { ccEth with name := "sol" })]
        "eth-test"
        { rpc_url := some "http:rpc-new", last_processed_block := none, xpub := none,
          block_lag := some 5, required_confirmations := none } = some chains' ∧
      mapGet "eth-test" chains' = some { ccEth with rpc_url := "http:rpc-new", block_lag := 5 } ∧
      mapGet "sol" chains' = some { ccEth with name := "sol" } := by
  rcases update_chain_frame [("eth-test", ccEth), ("sol", { ccEth with name := "sol" })]
      "eth-test"
      { rpc_url := some "http:rpc-new", last_processed_block := none, xpub := none,
        block_lag := some 5, required_confirmations := none } ccEth (by rfl) with
    ⟨chains', hrun, hget, _, hframe⟩
  refine ⟨chains', hrun, ?_, ?_⟩
  · exact hget
  · rw [hframe "sol" (by decide)]
    rfl

/-!
### C5 — pending-invoice lookup is case-sensitive

The specification says the address match of
`get_pending_invoice_by_address` is case-insensitive at the interface,
but both backends compare the strings exactly (`inv.address == address`
in the mock, `address = $2` in the Postgres query).
-/

/-- C5 counterexample: a Pending invoice is stored under the checksummed
address `"0xAb"`; looking it up with the lowercase variant `"0xab"`
returns nothing, while the exact string finds it.  This refutes the
claim that any case variant of the address returns the invoice. -/
def invAb : Invoice :=
  { id := "inv-1", address_index := 0, address := "0xAb", amount := "1", amount_raw := 10,
    paid := "0", paid_raw := 0, token := "ETH", network := "eth-test", decimals := 0,
    webhook_url := some "http:merchant", webhook_secret := some "s3cret",
    created_at := 0, expires_at := 1000, status := InvoiceStatus.Pending }

theorem get_pending_invoice_case_counterexample :
    mock_get_pending_invoice_by_address
        { mockInit with invoices := [("inv-1", invAb)] } "eth-test" "0xab" = none ∧
      mock_get_pending_invoice_by_address
        { mockInit with invoices := [("inv-1", invAb)] } "eth-test" "0xAb" = some invAb := by
  constructor <;> rfl

/-- C5 (amended): `get_pending_invoice_by_address` matches the address by
exact, case-sensitive string equality: it returns an invoice only when
the network and address of that invoice are literally the query strings and
its status is Pending, and it returns one exactly when such an invoice
exists; a differently-cased variant of a stored address does not match. -/
theorem get_pending_invoice_exact_match (st : MockState) (chain_name address : String) :
    (∀ inv, mock_get_pending_invoice_by_address st chain_name address = some inv →
      inv.network = chain_name ∧ inv.address = address ∧ inv.status = InvoiceStatus.Pending) ∧
    ((mock_get_pending_invoice_by_address st chain_name address).isSome = true ↔
      ∃ e ∈ st.invoices, e.snd.network = chain_name ∧ e.snd.address = address ∧
        e.snd.status = InvoiceStatus.Pending) := by
  constructor
  · intro inv hinv
    have := List.find?_some hinv
    simpa using this
  · rw [mock_get_pending_invoice_by_address, List.find?_isSome]
    constructor
    · rintro ⟨inv, hmem, hp⟩
      rcases List.mem_map.mp hmem with ⟨e, he, hei⟩
      exact ⟨e, he, by rw [hei]; simpa using hp⟩
    · rintro ⟨e, he, h1, h2, h3⟩
      exact ⟨e.snd, List.mem_map.mpr ⟨e, he, rfl⟩, by simp [h1, h2, h3]⟩

/-- C5 witness: on a store holding the checksummed-address invoice, the
theorem applied at the exact strings yields the match facts. -/
theorem get_pending_invoice_exact_match_witness :
    invAb.network = "eth-test" ∧ invAb.address = "0xAb" ∧
      invAb.status = InvoiceStatus.Pending :=
  (get_pending_invoice_exact_match
      { mockInit with invoices := [("inv-1", invAb)] } "eth-test" "0xAb").1 invAb (by rfl)

/-!
### C9 — webhook signature
-/

theorem hexDigitChar_lower (n : Nat) : isLowerHexDigit (hexDigitChar n) := by
  have hm : n % 16 < 16 := Nat.mod_lt _ (by norm_num)
  unfold hexDigitChar
  generalize hg : n % 16 = m at hm ⊢
  interval_cases m <;> decide

theorem hexEncode_lower (bytes : List Nat) :
    ∀ c ∈ (hexEncode bytes).toList, isLowerHexDigit c := by
  have hfold : ∀ c ∈ bytes.foldr
      (fun b acc => hexDigitChar (b / 16) :: hexDigitChar b :: acc) [],
      isLowerHexDigit c := by
    induction bytes with
    | nil => intro c hc; simp at hc
    | cons b rest ih =>
        intro c hc
        rcases List.mem_cons.mp hc with h1 | h2
        · exact h1 ▸ hexDigitChar_lower _
        · rcases List.mem_cons.mp h2 with h3 | h4
          · exact h3 ▸ hexDigitChar_lower _
          · exact ih c h4
  intro c hc
  exact hfold c hc

/-- C9: for every dispatched webhook job, the `X-Webhook-Signature`
header equals the lowercase hex encoding of the MAC (HMAC-SHA256, taken
as a parameter since it is a library call) keyed by the stored secret
over `timestamp ++ "." ++ body`, where `timestamp` is exactly the
`X-Webhook-Timestamp` header string and `body` exactly the serialized
payload sent as the request body — so the server can recompute the
signature from the delivered headers, body and its copy of the secret. -/
theorem webhook_signature_verifiable
    (hmacSha256 : String → String → List Nat) (serializeJson : WebhookEvent → String)
    (now : Nat) (job : WebhookJob) :
    (process_webhook_request hmacSha256 serializeJson now job).signatureHeader =
        hexEncode (hmacSha256 job.secret_key
          ((process_webhook_request hmacSha256 serializeJson now job).timestampHeader ++ "." ++
            (process_webhook_request hmacSha256 serializeJson now job).body)) ∧
      (process_webhook_request hmacSha256 serializeJson now job).body =
        serializeJson job.payload ∧
      (process_webhook_request hmacSha256 serializeJson now job).timestampHeader =
        toString now ∧
      ∀ c ∈ (process_webhook_request hmacSha256 serializeJson now job).signatureHeader.toList,
        isLowerHexDigit c :=
  ⟨rfl, rfl, rfl, hexEncode_lower _⟩

/-!
### C7 — a failed channel send is not fatal for the ingestor
-/

/-- Two native transfers to the watched address, used to exercise the
send loop with the receiver dropped. -/
def txA : EvmTx := { toAddr := some "0xa", fromAddr := "0xf1", hash := "0xh1", value := 1 }

def txB : EvmTx := { toAddr := some "0xa", fromAddr := "0xf2", hash := "0xh2", value := 2 }

/-- C7 counterexample: with the receiver dropped every send fails, yet
`process_transactions` still builds and attempts the event for the
second transaction after the first send already failed, and completes
the block — the loop does not exit, contradicting the claim that no
later transaction is processed after a failed channel send. -/
theorem channel_failure_counterexample :
    ((evm_process_transactions false [txA, txB] ["0xa"] 0 "ETH" 7 "eth-test").map
        Prod.snd = [false, false]) ∧
      ((evm_process_transactions false [txA, txB] ["0xa"] 0 "ETH" 7 "eth-test").map
        (fun pr => pr.fst.tx_hash) = ["0xh1", "0xh2"]) := by
  constructor <;> rfl

/-- C7 (amended): a failed `PaymentEvent` send is only logged by the EVM
ingestor; the transaction and log loops keep going and return `Ok`.
With the receiver dropped the very same events are built and attempted,
in the same order, as with a live receiver — no later transaction or log
is skipped, and the listen loop proceeds to the next block. -/
theorem channel_failure_not_fatal (txs : List EvmTx) (logs : List TransferLog)
    (token_map : List (String × TokenConfig)) (addresses : List String)
    (decimals : Nat) (native_symbol : String) (block_num : Nat) (chain_name : String) :
    evm_process_transactions false txs addresses decimals native_symbol block_num chain_name
        = (evm_process_transactions true txs addresses decimals native_symbol block_num
            chain_name).map (fun pr => (pr.fst, false)) ∧
      evm_process_logs false logs token_map addresses chain_name
        = (evm_process_logs true logs token_map addresses chain_name).map
            (fun pr => (pr.fst, false)) := by
  constructor
  · induction txs with
    | nil => rfl
    | cons tx rest ih =>
        cases htx : tx.toAddr with
        | none => simp [evm_process_transactions, htx, ih]
        | some t =>
            by_cases hc : t ∈ addresses ∧ 0 < tx.value <;>
              simp [evm_process_transactions, htx, hc, ih]
  · induction logs with
    | nil => rfl
    | cons log rest ih =>
        cases hlg : mapGet log.contract token_map with
        | none => simp [evm_process_logs, hlg, ih]
        | some tc =>
            by_cases hc : log.toAddr ∈ addresses <;>
              simp [evm_process_logs, hlg, hc, ih]

/-!
### C8 — webhook retry schedule
-/

/-- C8: on a failed delivery of a leased job, the dispatcher computes
`attempts' = attempts + 1`; at or past `max_retries` it marks the stored
job `Failed` (leaving its counter and `next_retry` as they were, and no
further attempts are scheduled), otherwise it reschedules the stored job
with status `Pending`, attempt counter `attempts'` and
`next_retry = now + 2 ^ attempts'` seconds; all other jobs are
untouched.  (`attempts + 1 < 64` keeps the 64-bit power of the source
exact.) -/
theorem handle_retry_spec (st : MockState) (job : WebhookJob) (now : Nat) (w : MockWebhook)
    (h : mapGet job.id st.webhooks = some w) (hpow : job.attempts + 1 < 64) :
    (job.max_retries ≤ job.attempts + 1 →
      ∃ st', handle_retry st job now = some st' ∧
        mapGet job.id st'.webhooks = some { w with status := WebhookStatus.Failed } ∧
        ∀ k, k ≠ job.id → mapGet k st'.webhooks = mapGet k st.webhooks) ∧
    (job.attempts + 1 < job.max_retries →
      ∃ st', handle_retry st job now = some st' ∧
        mapGet job.id st'.webhooks = some { w with
          status := WebhookStatus.Pending,
          attempts := job.attempts + 1,
          next_retry := now + 2 ^ (job.attempts + 1) } ∧
        ∀ k, k ≠ job.id → mapGet k st'.webhooks = mapGet k st.webhooks) := by
  have hsome : (mapGet job.id st.webhooks).isSome = true := by rw [h]; rfl
  constructor
  · intro hmax
    simp only [handle_retry, mock_set_webhook_status]
    rw [if_pos hmax, if_pos hsome]
    refine ⟨_, rfl, ?_, ?_⟩
    · show mapGet job.id (mapSet job.id _ st.webhooks) = _
      rw [mapGet_mapSet_self, h, Option.map_some']
    · intro k hk
      exact mapGet_mapSet_ne k job.id _ st.webhooks hk
  · intro hlt
    have hnot : ¬ (job.max_retries ≤ job.attempts + 1) := by omega
    have hdelay : 2 ^ (job.attempts + 1) % 2 ^ 64 = 2 ^ (job.attempts + 1) :=
      Nat.mod_eq_of_lt (Nat.pow_lt_pow_right (by norm_num) hpow)
    simp only [handle_retry, mock_schedule_webhook_retry]
    rw [if_neg hnot, if_pos hsome]
    refine ⟨_, rfl, ?_, ?_⟩
    · show mapGet job.id (mapSet job.id _ st.webhooks) = _
      rw [mapGet_mapSet_self, h, Option.map_some', hdelay]
    · intro k hk
      exact mapGet_mapSet_ne k job.id _ st.webhooks hk

/-- The leased job and its stored row used by the C8 witness. -/
def jobW : WebhookJob :=
  { id := "uuid-0", url := "http:merchant", secret_key := "s3cret",
    payload := WebhookEvent.TxDetected "inv-1" "0xh1" "1" "ETH",
    attempts := 0, max_retries := 10 }

def whW : MockWebhook :=
  { id := "uuid-0", invoice_id := "inv-1", url := "http:merchant",
    payload := WebhookEvent.TxDetected "inv-1" "0xh1" "1" "ETH",
    status := WebhookStatus.Processing, attempts := 0, max_retries := 10, next_retry := 50 }

/-- C8 witness: the first failed delivery (attempts 0, limit 10) leaves
the job Pending with `attempts = 1` and `next_retry = now + 2`. -/
theorem handle_retry_spec_witness :
    ∃ st', handle_retry { mockInit with webhooks := [("uuid-0", whW)] } jobW 100 = some st' ∧
      mapGet "uuid-0" st'.webhooks = some { whW with
        status := WebhookStatus.Pending, attempts := 1, next_retry := 102 } := by
  rcases (handle_retry_spec { mockInit with webhooks := [("uuid-0", whW)] } jobW 100 whW
      (by rfl) (by decide)).2 (by decide) with ⟨st', h1, h2, _⟩
  exact ⟨st', h1, by simpa using h2⟩

theorem updateFirst_length (p : α → Bool) (f : α → α) (l : List α) :
    (updateFirst p f l).length = l.length := by
  induction l with
  | nil => rfl
  | cons a rest ih =>
      by_cases h : p a <;> simp [updateFirst, h, ih]

theorem mapGet_split_mapSet (k : String) (f : α → α) (l : List (String × α)) (v : α)
    (h : mapGet k l = some v) :
    ∃ l1 l2, l = l1 ++ (k, v) :: l2 ∧ (∀ e ∈ l1, e.fst ≠ k) ∧
      mapSet k f l = l1 ++ (k, f v) :: l2 := by
  induction l with
  | nil => simp [mapGet] at h
  | cons e rest ih =>
      obtain ⟨ef, es⟩ := e
      by_cases he : ef = k
      · have hv : es = v := by
          simp [mapGet, List.find?_cons, he] at h
          exact h
        subst he
        subst hv
        exact ⟨[], rest, by simp, by simp, by simp [mapSet]⟩
      · have h' : mapGet k rest = some v := by
          simpa [mapGet, List.find?_cons, he] using h
        rcases ih h' with ⟨l1, l2, hsplit, hnone, hset⟩
        refine ⟨(ef, es) :: l1, l2, by simp [hsplit], ?_, by simp [mapSet, he, hset]⟩
        intro x hx
        rcases List.mem_cons.mp hx with h1 | h2
        · exact h1 ▸ he
        · exact hnone x h2

/-!
### C1 — the payment upsert and its keys
-/

/-- C1 counterexample: in the mock store, two `add_payment_attempt` calls
for the same invoice with two different transaction hashes leave a single
payment row (still carrying the first tx hash, with the block number of the
second call) — not the two distinct rows the claim requires. -/
theorem add_payment_attempt_counterexample :
    ((mock_add_payment_attempt
        (mock_add_payment_attempt
          { mockInit with invoices := [("inv-1", invAb)] }
          "inv-1" "0xf1" "0xAb" "0xh1" 4 100 "eth-test" 0)
        "inv-1" "0xf2" "0xAb" "0xh2" 6 101 "eth-test" 1).payments.length = 1) ∧
      ((mock_add_payment_attempt
        (mock_add_payment_attempt
          { mockInit with invoices := [("inv-1", invAb)] }
          "inv-1" "0xf1" "0xAb" "0xh1" 4 100 "eth-test" 0)
        "inv-1" "0xf2" "0xAb" "0xh2" 6 101 "eth-test" 1).payments.map
          (fun e => (e.snd.tx_hash, e.snd.amount_raw, e.snd.block_number))
        = [("0xh1", 4, 101)]) := by
  constructor <;> rfl

/-- C1 (amended): `add_payment_attempt` takes no `log_index`.  In the
Postgres backend it upserts on `(invoice_id, tx_hash)`: when the pair is
absent it appends exactly one new `Confirming` row with the given
fields; on conflict it rewrites only `block_number` of the (unique)
matching row, leaving its other fields and all other rows unchanged; two
calls with the same invoice and different tx hashes insert two rows, and
repeating the same pair leaves a single row.  In the mock backend the
upsert key is `invoice_id` alone: any later call for the same invoice
only rewrites `block_number` of its single row. -/
theorem add_payment_attempt_upsert (tbl : PgPayments) (st : MockState)
    (invoice_id fromAddr toAddr tx_hash tx_hash2 network : String)
    (amount_raw block_number block2 : Nat) (now : Nat) :
    ((∀ r ∈ tbl.rows, ¬ (r.invoice_id = invoice_id ∧ r.tx_hash = tx_hash)) →
      (pg_add_payment_attempt tbl invoice_id fromAddr toAddr tx_hash network
        amount_raw block_number).rows = tbl.rows ++ [{
          id := tbl.nextId, invoice_id := invoice_id, fromAddr := fromAddr,
          toAddr := toAddr, network := network, tx_hash := tx_hash,
          amount_raw := amount_raw, block_number := block_number,
          status := PaymentStatus.Confirming }]) ∧
    (∀ r0, tbl.rows.find? (fun r => r.invoice_id = invoice_id ∧ r.tx_hash = tx_hash)
        = some r0 →
      ∃ l1 l2, tbl.rows = l1 ++ r0 :: l2 ∧
        (pg_add_payment_attempt tbl invoice_id fromAddr toAddr tx_hash network
          amount_raw block_number).rows
            = l1 ++ { r0 with block_number := block_number } :: l2) ∧
    ((∀ r ∈ tbl.rows, ¬ (r.invoice_id = invoice_id ∧ r.tx_hash = tx_hash)) →
      (∀ r ∈ tbl.rows, ¬ (r.invoice_id = invoice_id ∧ r.tx_hash = tx_hash2)) →
      tx_hash ≠ tx_hash2 →
      (pg_add_payment_attempt
        (pg_add_payment_attempt tbl invoice_id fromAddr toAddr tx_hash network
          amount_raw block_number)
        invoice_id fromAddr toAddr tx_hash2 network amount_raw block2).rows.length
        = tbl.rows.length + 2) ∧
    ((∀ r ∈ tbl.rows, ¬ (r.invoice_id = invoice_id ∧ r.tx_hash = tx_hash)) →
      (pg_add_payment_attempt
        (pg_add_payment_attempt tbl invoice_id fromAddr toAddr tx_hash network
          amount_raw block_number)
        invoice_id fromAddr toAddr tx_hash network amount_raw block2).rows.length
        = tbl.rows.length + 1) ∧
    (∀ p0, mapGet invoice_id st.payments = some p0 →
      ∃ l1 l2, st.payments = l1 ++ (invoice_id, p0) :: l2 ∧
        (mock_add_payment_attempt st invoice_id fromAddr toAddr tx_hash
          amount_raw block_number network now).payments
            = l1 ++ (invoice_id, { p0 with block_number := block_number }) :: l2) := by
  have hany_false : ∀ (rows : List PgPayment) (tx : String),
      (∀ r ∈ rows, ¬ (r.invoice_id = invoice_id ∧ r.tx_hash = tx)) →
      rows.any (fun r => r.invoice_id = invoice_id ∧ r.tx_hash = tx) = false := by
    intro rows tx hno
    rw [List.any_eq_false]
    intro r hr
    simpa using hno r hr
  refine ⟨?_, ?_, ?_, ?_, ?_⟩
  · intro hno
    rw [pg_add_payment_attempt, if_neg (by rw [hany_false tbl.rows tx_hash hno]; simp)]
  · intro r0 hfind
    have hany : tbl.rows.any (fun r => r.invoice_id = invoice_id ∧ r.tx_hash = tx_hash)
        = true := by
      have hmem := List.mem_of_find?_eq_some hfind
      have hp := List.find?_some hfind
      rw [List.any_eq_true]
      exact ⟨r0, hmem, hp⟩
    rcases find?_split_updateFirst _ (fun r => { r with block_number := block_number })
      _ _ hfind with ⟨l1, l2, hsplit, _, hupd⟩
    refine ⟨l1, l2, hsplit, ?_⟩
    rw [pg_add_payment_attempt, if_pos hany]
    exact hupd
  · intro hno1 hno2 htx
    have h1 : (pg_add_payment_attempt tbl invoice_id fromAddr toAddr tx_hash network
        amount_raw block_number).rows = tbl.rows ++ [{
          id := tbl.nextId, invoice_id := invoice_id, fromAddr := fromAddr,
          toAddr := toAddr, network := network, tx_hash := tx_hash,
          amount_raw := amount_raw, block_number := block_number,
          status := PaymentStatus.Confirming }] := by
      rw [pg_add_payment_attempt, if_neg (by rw [hany_false tbl.rows tx_hash hno1]; simp)]
    have hno2' : ∀ r ∈ (pg_add_payment_attempt tbl invoice_id fromAddr toAddr tx_hash
        network amount_raw block_number).rows,
        ¬ (r.invoice_id = invoice_id ∧ r.tx_hash = tx_hash2) := by
      rw [h1]
      intro r hr
      rcases List.mem_append.mp hr with hmem | hmem
      · exact hno2 r hmem
      · rintro ⟨_, hrt⟩
        simp at hmem
        rw [hmem] at hrt
        exact htx hrt
    rw [pg_add_payment_attempt, if_neg (by rw [hany_false _ tx_hash2 hno2']; simp), h1]
    simp
  · intro hno
    have h1 : (pg_add_payment_attempt tbl invoice_id fromAddr toAddr tx_hash network
        amount_raw block_number).rows = tbl.rows ++ [{
          id := tbl.nextId, invoice_id := invoice_id, fromAddr := fromAddr,
          toAddr := toAddr, network := network, tx_hash := tx_hash,
          amount_raw := amount_raw, block_number := block_number,
          status := PaymentStatus.Confirming }] := by
      rw [pg_add_payment_attempt, if_neg (by rw [hany_false tbl.rows tx_hash hno]; simp)]
    have hany2 : (pg_add_payment_attempt tbl invoice_id fromAddr toAddr tx_hash network
        amount_raw block_number).rows.any
        (fun r => r.invoice_id = invoice_id ∧ r.tx_hash = tx_hash) = true := by
      rw [List.any_eq_true, h1]
      refine ⟨_, List.mem_append.mpr (Or.inr (List.mem_singleton.mpr rfl)), by simp⟩
    rw [pg_add_payment_attempt, if_pos hany2]
    show (updateFirst _ _ _).length = _
    rw [updateFirst_length, h1]
    simp
  · intro p0 hget
    have hsome : (mapGet invoice_id st.payments).isSome = true := by rw [hget]; rfl
    rcases mapGet_split_mapSet invoice_id
      (fun p => { p with block_number := block_number }) st.payments p0 hget with
      ⟨l1, l2, hsplit, _, hset⟩
    refine ⟨l1, l2, hsplit, ?_⟩
    rw [mock_add_payment_attempt, if_pos hsome]
    exact hset

/-- The Postgres row and the mock payment row used by the C1 witness. -/
def rowH1 : PgPayment :=
  { id := 0, invoice_id := "inv-1", fromAddr := "0xf1", toAddr := "0xAb",
    network := "eth-test", tx_hash := "0xh1", amount_raw := 4, block_number := 100,
    status := PaymentStatus.Confirming }

def payH1 : Payment :=
  { id := "uuid-0", invoice_id := "inv-1", fromAddr := "0xf1", toAddr := "0xAb",
    network := "eth-test", tx_hash := "0xh1", amount_raw := 4, block_number := 100,
    status := PaymentStatus.Confirming, created_at := 0 }

/-- C1 witness: on small concrete tables, the insert path appends the one
Confirming row; on conflict only `block_number` of the matching row
changes; and the mock rewrites the single invoice-keyed row. -/
theorem add_payment_attempt_upsert_witness :
    ((pg_add_payment_attempt { rows := [], nextId := 0 } "inv-1" "0xf1" "0xAb" "0xh1"
      "eth-test" 4 100).rows = [rowH1]) ∧
    (∃ l1 l2, ([rowH1] : List PgPayment) = l1 ++ rowH1 :: l2 ∧
      (pg_add_payment_attempt { rows := [rowH1], nextId := 1 } "inv-1" "0xf1" "0xAb"
        "0xh1" "eth-test" 4 101).rows = l1 ++ { rowH1 with block_number := 101 } :: l2) ∧
    (∃ l1 l2, [("inv-1", payH1)] = l1 ++ ("inv-1", payH1) :: l2 ∧
      (mock_add_payment_attempt { mockInit with payments := [("inv-1", payH1)] }
        "inv-1" "0xf2" "0xAb" "0xh2" 6 101 "eth-test" 1).payments
          = l1 ++ ("inv-1", { payH1 with block_number := 101 }) :: l2) := by
  refine ⟨?_, ?_, ?_⟩
  · have h := (add_payment_attempt_upsert { rows := [], nextId := 0 } mockInit
      "inv-1" "0xf1" "0xAb" "0xh1" "0xh2" "eth-test" 4 100 101 0).1
    rw [h (by intro r hr; simp at hr)]
    rfl
  · exact (add_payment_attempt_upsert { rows := [rowH1], nextId := 1 } mockInit
      "inv-1" "0xf1" "0xAb" "0xh1" "0xh2" "eth-test" 4 101 102 0).2.1 rowH1 (by rfl)
  · exact (add_payment_attempt_upsert { rows := [], nextId := 0 }
      { mockInit with payments := [("inv-1", payH1)] }
      "inv-1" "0xf2" "0xAb" "0xh2" "0xh3" "eth-test" 6 101 102 1).2.2.2.2 payH1 (by rfl)

/-!
### C4 — the watcher enqueues `TxDetected` on both upsert paths
-/

theorem mock_add_payment_attempt_invoices (st : MockState)
    (invoice_id fromAddr toAddr tx_hash : String) (amount_raw block_number : Nat)
    (network : String) (now : Nat) :
    (mock_add_payment_attempt st invoice_id fromAddr toAddr tx_hash amount_raw
      block_number network now).invoices = st.invoices := by
  rw [mock_add_payment_attempt]
  split <;> rfl

theorem mock_add_payment_attempt_webhooks (st : MockState)
    (invoice_id fromAddr toAddr tx_hash : String) (amount_raw block_number : Nat)
    (network : String) (now : Nat) :
    (mock_add_payment_attempt st invoice_id fromAddr toAddr tx_hash amount_raw
      block_number network now).webhooks = st.webhooks := by
  rw [mock_add_payment_attempt]
  split <;> rfl

/-- The event and states used by the C4 counterexample and witness: a
Pending invoice with a webhook URL receives the same payment event
twice. -/
def evC4 : PaymentEvent :=
  { network := "eth-test", tx_hash := "0xh1", fromAddr := "0xf1", toAddr := "0xAb",
    token := "ETH", amount := "1", amount_raw := 1, decimals := 0,
    block_number := 100, log_index := none }

def stC4 : MockState := { mockInit with invoices := [("inv-1", invAb)] }

def stC4b : MockState := watcher_process_event stC4 evC4 0

/-- C4 counterexample: delivering the same payment event twice makes the
second `add_payment_attempt` take the conflict-update path (one payment
row before and after), yet a second `TxDetected` webhook job is still
enqueued — the watcher does not restrict the job to fresh inserts. -/
theorem watcher_txdetected_counterexample :
    stC4b.payments.length = 1 ∧ stC4b.webhooks.length = 1 ∧
      (watcher_process_event stC4b evC4 1).payments.length = 1 ∧
      (watcher_process_event stC4b evC4 1).webhooks.length = 2 := by
  refine ⟨rfl, rfl, rfl, rfl⟩

/-- C4 (amended): whenever the watcher finds the Pending invoice for
`(network, to)`, the network and token match, and the invoice has a
webhook URL, it enqueues exactly one `TxDetected` job — on every
successful `add_payment_attempt`, whether that call inserted a fresh row
or took the conflict-update path; re-observations therefore enqueue
duplicate `TxDetected` jobs. -/
theorem watcher_txdetected_always (st : MockState) (e : PaymentEvent) (now : Nat)
    (inv inv2 : Invoice) (url : String)
    (hfind : mock_get_pending_invoice_by_address st e.network e.toAddr = some inv)
    (hnet : e.network = inv.network) (htok : e.token = inv.token)
    (hinv : mapGet inv.id st.invoices = some inv2)
    (hurl : inv2.webhook_url = some url) :
    ∃ jid, (watcher_process_event st e now).webhooks
        = st.webhooks ++ [(jid,
            { id := jid, invoice_id := inv.id, url := url,
              payload := WebhookEvent.TxDetected inv.id e.tx_hash e.amount e.token,
              status := WebhookStatus.Pending, attempts := 0, max_retries := 10,
              next_retry := now })] := by
  have hinv1 : mapGet inv.id (mock_add_payment_attempt st inv.id e.fromAddr e.toAddr
      e.tx_hash e.amount_raw e.block_number e.network now).invoices = some inv2 := by
    rw [mock_add_payment_attempt_invoices]
    exact hinv
  simp only [watcher_process_event, hfind]
  rw [if_neg (by simp [hnet, htok])]
  simp only [mock_add_webhook_job, hinv1, hurl]
  exact ⟨_, by rw [mock_add_payment_attempt_webhooks]⟩

/-- C4 witness: applied to the state that already holds the payment row
for the event (the conflict-update configuration), the watcher still
appends a `TxDetected` job, bringing the job count to two. -/
theorem watcher_txdetected_always_witness :
    (watcher_process_event stC4b evC4 1).webhooks.length = 2 := by
  obtain ⟨jid, happ⟩ := watcher_txdetected_always stC4b evC4 1 invAb invAb
    "http:merchant" (by rfl) (by rfl) (by rfl) (by rfl) (by rfl)
  rw [happ, List.length_append]
  rfl

/-!
### C3 — a single `finalize_payment` call
-/

theorem find?_updateFirst_self (p : α → Bool) (f : α → α) (l : List α) (a : α)
    (h : l.find? p = some a) (hf : p (f a) = true) :
    (updateFirst p f l).find? p = some (f a) := by
  rcases find?_split_updateFirst p f l a h with ⟨l1, l2, _, hnone, hupd⟩
  rw [hupd, List.find?_append]
  have h1 : l1.find? p = none := List.find?_eq_none.mpr (by
    intro x hx
    rw [hnone x hx]
    simp)
  rw [h1, List.find?_cons, hf]
  rfl

/-- C3: `finalize_payment`, applied to an existing payment whose status is
Confirming and whose invoice exists (with in-range arithmetic,
`paid_raw + amount_raw < 2 ^ 256`, and `decimals ≤ 77` so the
human-readable rendering succeeds), marks that payment Confirmed,
increases the `paid_raw` of the invoice by exactly the
`amount_raw`, sets the invoice status to Paid exactly when the resulting
`paid_raw ≥ amount_raw` (leaving it as it was otherwise), returns
`fully_paid = true` exactly when the resulting `paid_raw ≥ amount_raw`,
and touches no other invoice. -/
theorem finalize_payment_spec (st : MockState) (pid : String) (e : String × Payment)
    (inv : Invoice)
    (hfind : st.payments.find? (fun e2 => e2.snd.id = pid) = some e)
    (_hconf : e.snd.status = PaymentStatus.Confirming)
    (hinv : mapGet e.snd.invoice_id st.invoices = some inv)
    (hdec : inv.decimals ≤ 77)
    (hov : inv.paid_raw + e.snd.amount_raw < U256_SIZE) :
    ∃ st' b, mock_finalize_payment st pid = (st', some b) ∧
      (b = true ↔ inv.amount_raw ≤ inv.paid_raw + e.snd.amount_raw) ∧
      mapGet e.snd.invoice_id st'.invoices = some { inv with
        paid_raw := inv.paid_raw + e.snd.amount_raw,
        paid := formatUnits (inv.paid_raw + e.snd.amount_raw) inv.decimals,
        status := if inv.amount_raw ≤ inv.paid_raw + e.snd.amount_raw
          then InvoiceStatus.Paid else inv.status } ∧
      st'.payments.find? (fun e2 => e2.snd.id = pid)
        = some (e.fst, { e.snd with status := PaymentStatus.Confirmed }) ∧
      (∀ k, k ≠ e.snd.invoice_id → mapGet k st'.invoices = mapGet k st.invoices) := by
  have hpaid : (inv.paid_raw + e.snd.amount_raw) % U256_SIZE
      = inv.paid_raw + e.snd.amount_raw := Nat.mod_eq_of_lt hov
  have hid : e.snd.id = pid := by simpa using List.find?_some hfind
  have hpay : (updateFirst (fun e2 => e2.snd.id = pid)
      (fun e2 => (e2.fst, { e2.snd with status := PaymentStatus.Confirmed }))
      st.payments).find? (fun e2 => e2.snd.id = pid)
        = some (e.fst, { e.snd with status := PaymentStatus.Confirmed }) :=
    find?_updateFirst_self _ _ _ _ hfind (by simpa using hid)
  simp only [mock_finalize_payment, hfind, hinv, hpaid]
  rw [if_pos hdec]
  by_cases hfull : inv.amount_raw ≤ inv.paid_raw + e.snd.amount_raw
  · rw [if_pos hfull]
    refine ⟨_, true, rfl, by simp [hfull], ?_, hpay, ?_⟩
    · show mapGet e.snd.invoice_id (mapSet e.snd.invoice_id _ st.invoices) = _
      rw [mapGet_mapSet_self, hinv, Option.map_some']
      simp [hfull]
    · intro k hk
      exact mapGet_mapSet_ne k e.snd.invoice_id _ st.invoices hk
  · rw [if_neg hfull]
    refine ⟨_, false, rfl, by simp [hfull], ?_, hpay, ?_⟩
    · show mapGet e.snd.invoice_id (mapSet e.snd.invoice_id _ st.invoices) = _
      rw [mapGet_mapSet_self, hinv, Option.map_some']
      simp [hfull]
    · intro k hk
      exact mapGet_mapSet_ne k e.snd.invoice_id _ st.invoices hk

/-- C3 witness: finalizing the Confirming 4-unit payment on the 10-unit
invoice confirms the payment, credits `paid_raw` by exactly 4, returns
`fully_paid = false`, and leaves the invoice unpaid. -/
theorem finalize_payment_spec_witness :
    ∃ st' b, mock_finalize_payment
        { mockInit with invoices := [("inv-1", invAb)], payments := [("inv-1", payH1)] }
        "uuid-0" = (st', some b) ∧
      b = false ∧
      mapGet payH1.invoice_id st'.invoices = some { invAb with
        paid_raw := invAb.paid_raw + payH1.amount_raw,
        paid := formatUnits (invAb.paid_raw + payH1.amount_raw) invAb.decimals,
        status := if invAb.amount_raw ≤ invAb.paid_raw + payH1.amount_raw
          then InvoiceStatus.Paid else invAb.status } := by
  obtain ⟨st', b, hrun, hb, hget, _, _⟩ := finalize_payment_spec
    { mockInit with invoices := [("inv-1", invAb)], payments := [("inv-1", payH1)] }
    "uuid-0" ("inv-1", payH1) invAb (by rfl) (by rfl) (by rfl) (by decide) (by decide)
  have hbf : b = false := by
    cases b with
    | false => rfl
    | true => exact absurd (hb.mp rfl) (by decide)
  exact ⟨st', b, hrun, hbf, hget⟩

/-!
### C2 — the paid-sum invariant over store-operation sequences
-/

/-- Sum of `amount_raw` over the Confirmed payment rows of one invoice. -/
def confirmedSum (invoice_id : String) : List (String × Payment) → Nat
  | [] => 0
  | e :: rest =>
    (if e.snd.invoice_id = invoice_id ∧ e.snd.status = PaymentStatus.Confirmed
      then e.snd.amount_raw else 0) + confirmedSum invoice_id rest

/-- The store operations of interest for the invariant. -/
inductive StoreOp where
  | addInvoice (inv : Invoice)
  | addPaymentAttempt (invoice_id fromAddr toAddr tx_hash : String)
      (amount_raw block_number : Nat) (network : String) (now : Nat)
  | finalizePayment (payment_id : String)
  | updatePaymentBlock (payment_id : String) (block_num : Nat)
  | setInvoiceStatus (uuid : String) (status : InvoiceStatus)

/-- Apply one store operation; a failed operation leaves the state as the
source leaves it (unchanged, except for the mutations `finalize_payment`
applies before it errors, which `mock_finalize_payment` already carries). -/
def applyOp (st : MockState) : StoreOp → MockState
  | .addInvoice inv => (mock_add_invoice st inv).getD st
  | .addPaymentAttempt iid fromAddr toAddr tx a b net now =>
      mock_add_payment_attempt st iid fromAddr toAddr tx a b net now
  | .finalizePayment pid => (mock_finalize_payment st pid).fst
  | .updatePaymentBlock pid b => (mock_update_payment_block st pid b).getD st
  | .setInvoiceStatus u s => (mock_set_invoice_status st u s).getD st

/-- The discipline under which the paid-sum invariant holds: invoices are
inserted with `paid_raw = 0`, payment amounts are `U256` values, and
`finalize_payment` is only invoked on a payment that is currently
Confirming and whose invoice exists (as the confirmator does: it feeds
`finalize_payment` from `get_confirming_payments`). -/
def ValidOp (st : MockState) : StoreOp → Prop
  | .addInvoice inv => inv.paid_raw = 0
  | .addPaymentAttempt _ _ _ _ a _ _ _ => a < U256_SIZE
  | .finalizePayment pid =>
      match st.payments.find? (fun e => e.snd.id = pid) with
      | some e => e.snd.status = PaymentStatus.Confirming ∧
          (mapGet e.snd.invoice_id st.invoices).isSome = true
      | none => False
  | .updatePaymentBlock pid _ => (mapGet pid st.payments).isSome = true
  | .setInvoiceStatus _ _ => True

/-- Validity of a whole operation sequence, step by step. -/
def TraceValid : MockState → List StoreOp → Prop
  | _, [] => True
  | st, op :: ops => ValidOp st op ∧ TraceValid (applyOp st op) ops

/-- Run a sequence of store operations. -/
def runOps (st : MockState) (ops : List StoreOp) : MockState := ops.foldl applyOp st

/-- The inductive store invariant: key/value agreement and key uniqueness
of both maps, `U256`-bounded amounts, every Confirmed payment backed by
an existing invoice, and the paid-sum equation itself. -/
structure StoreInv (st : MockState) : Prop where
  inv_key : ∀ e ∈ st.invoices, e.fst = e.snd.id
  inv_nodup : (st.invoices.map Prod.fst).Nodup
  pay_key : ∀ e ∈ st.payments, e.fst = e.snd.invoice_id
  pay_nodup : (st.payments.map Prod.fst).Nodup
  pay_bound : ∀ e ∈ st.payments, e.snd.amount_raw < U256_SIZE
  pay_confirmed_inv : ∀ e ∈ st.payments, e.snd.status = PaymentStatus.Confirmed →
    (mapGet e.fst st.invoices).isSome = true
  paid_sum : ∀ e ∈ st.invoices, e.snd.paid_raw = confirmedSum e.fst st.payments

theorem confirmedSum_append (iid : String) (l1 l2 : List (String × Payment)) :
    confirmedSum iid (l1 ++ l2) = confirmedSum iid l1 + confirmedSum iid l2 := by
  induction l1 with
  | nil => simp [confirmedSum]
  | cons e rest ih => simp [confirmedSum, ih]; omega

theorem confirmedSum_zero_of_no_key (iid : String) (l : List (String × Payment))
    (hkey : ∀ e ∈ l, e.fst = e.snd.invoice_id) (hno : iid ∉ l.map Prod.fst) :
    confirmedSum iid l = 0 := by
  induction l with
  | nil => rfl
  | cons e rest ih =>
      have hne : e.snd.invoice_id ≠ iid := by
        rw [← hkey e (List.mem_cons_self _ _)]
        intro hk
        exact hno (by simp [hk])
      rw [confirmedSum, if_neg (by simp [hne]), ih
        (fun x hx => hkey x (List.mem_cons_of_mem _ hx))
        (fun hmem => hno (by simp at hmem ⊢; exact Or.inr hmem))]

theorem mapGet_some_mem (k : String) (l : List (String × α)) (v : α)
    (h : mapGet k l = some v) : ∃ e ∈ l, e.fst = k ∧ e.snd = v := by
  cases hf : l.find? (fun e => e.fst = k) with
  | none => rw [mapGet, hf] at h; simp at h
  | some a =>
      rw [mapGet, hf, Option.map_some'] at h
      injection h with h
      exact ⟨a, List.mem_of_find?_eq_some hf, by simpa using List.find?_some hf, h⟩

theorem mapGet_isSome_key (k : String) (l : List (String × α)) :
    (mapGet k l).isSome = true ↔ k ∈ l.map Prod.fst := by
  rw [mapGet_isSome_iff]
  constructor
  · rintro ⟨e, he, hk⟩
    exact hk ▸ List.mem_map.mpr ⟨e, he, rfl⟩
  · intro hk
    rcases List.mem_map.mp hk with ⟨e, he, hk'⟩
    exact ⟨e, he, hk'⟩

theorem storeInv_finalize_aux (st : MockState) (pid : String) (e : String × Payment)
    (inv v : Invoice) (hInv : StoreInv st)
    (hfind : st.payments.find? (fun e2 => e2.snd.id = pid) = some e)
    (hconf : e.snd.status = PaymentStatus.Confirming)
    (hinv : mapGet e.snd.invoice_id st.invoices = some inv)
    (hvid : v.id = inv.id)
    (hvpaid : v.paid_raw = (inv.paid_raw + e.snd.amount_raw) % U256_SIZE) :
    StoreInv
      { st with
        payments := updateFirst (fun e2 => e2.snd.id = pid)
          (fun e2 => (e2.fst, { e2.snd with status := PaymentStatus.Confirmed }))
          st.payments,
        invoices := mapSet e.snd.invoice_id (fun _ => v) st.invoices } := by
  obtain ⟨l1, l2, hsplit, hl1none, hupd⟩ := find?_split_updateFirst
    (fun e2 => e2.snd.id = pid)
    (fun e2 => (e2.fst, { e2.snd with status := PaymentStatus.Confirmed }))
    st.payments e hfind
  obtain ⟨m1, m2, hisplit, hm1ne, hiset⟩ := mapGet_split_mapSet e.snd.invoice_id
    (fun _ => v) st.invoices inv hinv
  have hmem_e : e ∈ st.payments := List.mem_of_find?_eq_some hfind
  have hkey_e : e.fst = e.snd.invoice_id := hInv.pay_key e hmem_e
  have hpfst : st.payments.map Prod.fst
      = l1.map Prod.fst ++ e.fst :: l2.map Prod.fst := by rw [hsplit]; simp
  have hpnd := hInv.pay_nodup
  rw [hpfst, List.nodup_append] at hpnd
  obtain ⟨hnd1, hnd2, hdisj⟩ := hpnd
  have hefst_notl2 : e.fst ∉ l2.map Prod.fst := (List.nodup_cons.mp hnd2).1
  have hefst_notl1 : e.fst ∉ l1.map Prod.fst :=
    fun hmem => (hdisj hmem) (List.mem_cons_self _ _)
  have hifst : st.invoices.map Prod.fst
      = m1.map Prod.fst ++ e.snd.invoice_id :: m2.map Prod.fst := by rw [hisplit]; simp
  have hind := hInv.inv_nodup
  rw [hifst, List.nodup_append] at hind
  obtain ⟨hind1, hind2, hidisj⟩ := hind
  have hiid_notm2 : e.snd.invoice_id ∉ m2.map Prod.fst := (List.nodup_cons.mp hind2).1
  have hment : (e.snd.invoice_id, inv) ∈ st.invoices := by
    rw [hisplit]
    exact List.mem_append.mpr (Or.inr (List.mem_cons_self _ _))
  have hinv_id : inv.id = e.snd.invoice_id := (hInv.inv_key _ hment).symm
  have hl1sub : ∀ x ∈ l1, x ∈ st.payments := by
    intro x hx
    rw [hsplit]
    exact List.mem_append.mpr (Or.inl hx)
  have hl2sub : ∀ x ∈ l2, x ∈ st.payments := by
    intro x hx
    rw [hsplit]
    exact List.mem_append.mpr (Or.inr (List.mem_cons_of_mem _ hx))
  have hm1sub : ∀ x ∈ m1, x ∈ st.invoices := by
    intro x hx
    rw [hisplit]
    exact List.mem_append.mpr (Or.inl hx)
  have hm2sub : ∀ x ∈ m2, x ∈ st.invoices := by
    intro x hx
    rw [hisplit]
    exact List.mem_append.mpr (Or.inr (List.mem_cons_of_mem _ hx))
  have hsum_l1 : confirmedSum e.snd.invoice_id l1 = 0 :=
    confirmedSum_zero_of_no_key _ _ (fun x hx => hInv.pay_key x (hl1sub x hx))
      (hkey_e ▸ hefst_notl1)
  have hsum_l2 : confirmedSum e.snd.invoice_id l2 = 0 :=
    confirmedSum_zero_of_no_key _ _ (fun x hx => hInv.pay_key x (hl2sub x hx))
      (hkey_e ▸ hefst_notl2)
  have hsum_old : confirmedSum e.snd.invoice_id st.payments = 0 := by
    rw [hsplit, confirmedSum_append, confirmedSum, hsum_l1, hsum_l2,
      if_neg (by simp [hconf])]
  have hpaid0 : inv.paid_raw = 0 := by
    have hps := hInv.paid_sum _ hment
    simpa [hsum_old] using hps
  have hamt : e.snd.amount_raw < U256_SIZE := hInv.pay_bound e hmem_e
  have hvpaid' : v.paid_raw = e.snd.amount_raw := by
    rw [hvpaid, hpaid0]
    simpa using Nat.mod_eq_of_lt hamt
  have hsum_new : confirmedSum e.snd.invoice_id
      (l1 ++ (e.fst, { e.snd with status := PaymentStatus.Confirmed }) :: l2)
        = e.snd.amount_raw := by
    rw [confirmedSum_append, confirmedSum, hsum_l1, hsum_l2, if_pos (by simp)]
    simp
  have hsum_other : ∀ k, k ≠ e.snd.invoice_id →
      confirmedSum k (l1 ++ (e.fst, { e.snd with status := PaymentStatus.Confirmed }) :: l2)
        = confirmedSum k st.payments := by
    intro k hk
    have hne : ¬ (e.snd.invoice_id = k) := fun h => hk h.symm
    rw [hsplit, confirmedSum_append, confirmedSum_append, confirmedSum, confirmedSum]
    simp [hne]
  refine ⟨?_, ?_, ?_, ?_, ?_, ?_, ?_⟩
  · intro x hx
    dsimp only at hx
    rw [hiset] at hx
    rcases List.mem_append.mp hx with hm | hm
    · exact hInv.inv_key x (hm1sub x hm)
    · rcases List.mem_cons.mp hm with hm' | hm'
      · rw [hm']
        show e.snd.invoice_id = v.id
        rw [hvid, hinv_id]
      · exact hInv.inv_key x (hm2sub x hm')
  · dsimp only
    rw [mapSet_map_fst]
    exact hInv.inv_nodup
  · intro x hx
    dsimp only at hx
    rw [hupd] at hx
    rcases List.mem_append.mp hx with hm | hm
    · exact hInv.pay_key x (hl1sub x hm)
    · rcases List.mem_cons.mp hm with hm' | hm'
      · rw [hm']
        exact hkey_e
      · exact hInv.pay_key x (hl2sub x hm')
  · dsimp only
    rw [hupd]
    have : (l1 ++ (e.fst, { e.snd with status := PaymentStatus.Confirmed }) :: l2).map
        Prod.fst = st.payments.map Prod.fst := by
      rw [hpfst]
      simp
    rw [this]
    exact hInv.pay_nodup
  · intro x hx
    dsimp only at hx
    rw [hupd] at hx
    rcases List.mem_append.mp hx with hm | hm
    · exact hInv.pay_bound x (hl1sub x hm)
    · rcases List.mem_cons.mp hm with hm' | hm'
      · rw [hm']
        exact hamt
      · exact hInv.pay_bound x (hl2sub x hm')
  · intro x hx hxc
    dsimp only at hx ⊢
    have hkeys : (mapSet e.snd.invoice_id (fun _ => v) st.invoices).map Prod.fst
        = st.invoices.map Prod.fst := mapSet_map_fst _ _ _
    rw [hupd] at hx
    rw [mapGet_isSome_key, hkeys]
    rcases List.mem_append.mp hx with hm | hm
    · exact (mapGet_isSome_key _ _).mp (hInv.pay_confirmed_inv x (hl1sub x hm) hxc)
    · rcases List.mem_cons.mp hm with hm' | hm'
      · rw [hm']
        show e.fst ∈ st.invoices.map Prod.fst
        rw [hkey_e]
        exact (mapGet_isSome_key _ _).mp (by rw [hinv]; rfl)
      · exact (mapGet_isSome_key _ _).mp (hInv.pay_confirmed_inv x (hl2sub x hm') hxc)
  · intro x hx
    dsimp only at hx ⊢
    rw [hiset] at hx
    rw [hupd]
    rcases List.mem_append.mp hx with hm | hm
    · have hne : x.fst ≠ e.snd.invoice_id := hm1ne x hm
      rw [hsum_other x.fst hne]
      exact hInv.paid_sum x (hm1sub x hm)
    · rcases List.mem_cons.mp hm with hm' | hm'
      · rw [hm']
        show v.paid_raw = confirmedSum e.snd.invoice_id _
        rw [hvpaid', hsum_new]
      · have hne : x.fst ≠ e.snd.invoice_id := by
          intro hk
          exact hiid_notm2 (hk ▸ List.mem_map.mpr ⟨x, hm', rfl⟩)
        rw [hsum_other x.fst hne]
        exact hInv.paid_sum x (hm2sub x hm')

theorem confirmedSum_zero_of_not_confirmed (iid : String) (l : List (String × Payment))
    (h : ∀ x ∈ l, x.snd.invoice_id = iid → x.snd.status ≠ PaymentStatus.Confirmed) :
    confirmedSum iid l = 0 := by
  induction l with
  | nil => rfl
  | cons e rest ih =>
      rw [confirmedSum, ih (fun x hx => h x (List.mem_cons_of_mem _ hx))]
      by_cases hiid : e.snd.invoice_id = iid
      · rw [if_neg (by simp [h e (List.mem_cons_self _ _) hiid])]
      · rw [if_neg (by simp [hiid])]

theorem confirmedSum_mapSet_block (iid k : String) (b : Nat)
    (l : List (String × Payment)) :
    confirmedSum iid (mapSet k (fun p => { p with block_number := b }) l)
      = confirmedSum iid l := by
  induction l with
  | nil => rfl
  | cons e rest ih =>
      by_cases h : e.fst = k <;> simp [mapSet, h, confirmedSum, ih]

/-- Rewriting only `block_number` of one payment entry preserves the
store invariant. -/
theorem storeInv_blockSet (st : MockState) (k : String) (b : Nat) (hInv : StoreInv st) :
    StoreInv { st with
      payments := mapSet k (fun p => { p with block_number := b }) st.payments } := by
  have hmem : ∀ x ∈ mapSet k (fun p => { p with block_number := b }) st.payments,
      ∃ e0 ∈ st.payments, e0.fst = x.fst ∧
        (x.snd.invoice_id = e0.snd.invoice_id ∧ x.snd.status = e0.snd.status ∧
          x.snd.amount_raw = e0.snd.amount_raw) := by
    intro x hx
    rcases mem_mapSet k _ st.payments x hx with hold | ⟨e0, he0, hfst, hsnd⟩
    · exact ⟨x, hold, rfl, rfl, rfl, rfl⟩
    · exact ⟨e0, he0, hfst, by rw [hsnd], by rw [hsnd], by rw [hsnd]⟩
  refine ⟨hInv.inv_key, hInv.inv_nodup, ?_, ?_, ?_, ?_, ?_⟩
  · intro x hx
    dsimp only at hx
    rcases hmem x hx with ⟨e0, he0, hfst, hiid, _, _⟩
    rw [hiid, ← hfst]
    exact hInv.pay_key e0 he0
  · dsimp only
    rw [mapSet_map_fst]
    exact hInv.pay_nodup
  · intro x hx
    dsimp only at hx
    rcases hmem x hx with ⟨e0, he0, _, _, _, hamt⟩
    rw [hamt]
    exact hInv.pay_bound e0 he0
  · intro x hx hxc
    dsimp only at hx ⊢
    rcases hmem x hx with ⟨e0, he0, hfst, _, hstat, _⟩
    rw [← hfst]
    exact hInv.pay_confirmed_inv e0 he0 (hstat ▸ hxc)
  · intro x hx
    dsimp only at hx ⊢
    rw [confirmedSum_mapSet_block]
    exact hInv.paid_sum x hx

/-- Rewriting one invoice entry with a function that preserves `id` and
`paid_raw` preserves the store invariant. -/
theorem storeInv_invSet (st : MockState) (k : String) (f : Invoice → Invoice)
    (hid : ∀ i, (f i).id = i.id) (hpaid : ∀ i, (f i).paid_raw = i.paid_raw)
    (hInv : StoreInv st) :
    StoreInv { st with invoices := mapSet k f st.invoices } := by
  have hmem : ∀ x ∈ mapSet k f st.invoices,
      ∃ e0 ∈ st.invoices, e0.fst = x.fst ∧
        (x.snd.id = e0.snd.id ∧ x.snd.paid_raw = e0.snd.paid_raw) := by
    intro x hx
    rcases mem_mapSet k f st.invoices x hx with hold | ⟨e0, he0, hfst, hsnd⟩
    · exact ⟨x, hold, rfl, rfl, rfl⟩
    · exact ⟨e0, he0, hfst, by rw [hsnd, hid], by rw [hsnd, hpaid]⟩
  have hkeys : (mapSet k f st.invoices).map Prod.fst = st.invoices.map Prod.fst :=
    mapSet_map_fst _ _ _
  refine ⟨?_, ?_, hInv.pay_key, hInv.pay_nodup, hInv.pay_bound, ?_, ?_⟩
  · intro x hx
    dsimp only at hx
    rcases hmem x hx with ⟨e0, he0, hfst, hidx, _⟩
    rw [hidx, ← hfst]
    exact hInv.inv_key e0 he0
  · dsimp only
    rw [hkeys]
    exact hInv.inv_nodup
  · intro x hx hxc
    dsimp only at hx ⊢
    rw [mapGet_isSome_key, hkeys, ← mapGet_isSome_key]
    exact hInv.pay_confirmed_inv x hx hxc
  · intro x hx
    dsimp only at hx ⊢
    rcases hmem x hx with ⟨e0, he0, hfst, _, hpaidx⟩
    rw [hpaidx, ← hfst]
    exact hInv.paid_sum e0 he0

theorem storeInv_preserved (st : MockState) (op : StoreOp)
    (hInv : StoreInv st) (hop : ValidOp st op) : StoreInv (applyOp st op) := by
  cases op with
  | addInvoice inv =>
      by_cases hin : (mapGet inv.id st.invoices).isSome = true
      · have hrw : applyOp st (StoreOp.addInvoice inv) = st := by
          simp [applyOp, mock_add_invoice, hin]
        rw [hrw]
        exact hInv
      · have hnotkey : inv.id ∉ st.invoices.map Prod.fst := by
          rw [← mapGet_isSome_key]
          exact hin
        have hrw : applyOp st (StoreOp.addInvoice inv)
            = { st with invoices := st.invoices ++ [(inv.id, inv)] } := by
          simp [applyOp, mock_add_invoice, hin]
        rw [hrw]
        refine ⟨?_, ?_, hInv.pay_key, hInv.pay_nodup, hInv.pay_bound, ?_, ?_⟩
        · intro x hx
          dsimp only at hx
          rcases List.mem_append.mp hx with hm | hm
          · exact hInv.inv_key x hm
          · simp at hm
            rw [hm]
        · dsimp only
          rw [List.map_append, List.nodup_append]
          refine ⟨hInv.inv_nodup, by simp, ?_⟩
          intro a ha
          simp only [List.map_cons, List.map_nil, List.mem_singleton]
          intro hai
          exact hnotkey (hai ▸ ha)
        · intro x hx hxc
          dsimp only at hx ⊢
          rw [mapGet_isSome_key, List.map_append]
          exact List.mem_append.mpr (Or.inl
            ((mapGet_isSome_key _ _).mp (hInv.pay_confirmed_inv x hx hxc)))
        · intro x hx
          dsimp only at hx ⊢
          rcases List.mem_append.mp hx with hm | hm
          · exact hInv.paid_sum x hm
          · simp at hm
            rw [hm]
            show inv.paid_raw = _
            rw [hop]
            refine (confirmedSum_zero_of_not_confirmed _ _ ?_).symm
            intro x2 hx2 hiid2 hconf2
            have := hInv.pay_confirmed_inv x2 hx2 hconf2
            rw [hInv.pay_key x2 hx2, hiid2] at this
            exact hin this
  | addPaymentAttempt iid fromAddr toAddr tx a b net now =>
      by_cases hc : (mapGet iid st.payments).isSome = true
      · have hrw : applyOp st (StoreOp.addPaymentAttempt iid fromAddr toAddr tx a b net now)
            = { st with payments := mapSet iid (fun p => { p with block_number := b }) st.payments } := by
          simp [applyOp, mock_add_payment_attempt, hc]
        rw [hrw]
        exact storeInv_blockSet st iid b hInv
      · have hnotkey : iid ∉ st.payments.map Prod.fst := by
          rw [← mapGet_isSome_key]
          exact hc
        have hrw : applyOp st (StoreOp.addPaymentAttempt iid fromAddr toAddr tx a b net now)
            = { st with
                payments := st.payments ++ [(iid,
                  { id := freshUuid st.nextUuid, invoice_id := iid, fromAddr := fromAddr,
                    toAddr := toAddr, network := net, tx_hash := tx, amount_raw := a,
                    block_number := b, status := PaymentStatus.Confirming,
                    created_at := now })],
                nextUuid := st.nextUuid + 1 } := by
          simp [applyOp, mock_add_payment_attempt, hc]
        rw [hrw]
        refine ⟨hInv.inv_key, hInv.inv_nodup, ?_, ?_, ?_, ?_, ?_⟩
        · intro x hx
          dsimp only at hx
          rcases List.mem_append.mp hx with hm | hm
          · exact hInv.pay_key x hm
          · simp at hm
            rw [hm]
        · dsimp only
          rw [List.map_append, List.nodup_append]
          refine ⟨hInv.pay_nodup, by simp, ?_⟩
          intro x hx
          simp only [List.map_cons, List.map_nil, List.mem_singleton]
          intro hxi
          exact hnotkey (hxi ▸ hx)
        · intro x hx
          dsimp only at hx
          rcases List.mem_append.mp hx with hm | hm
          · exact hInv.pay_bound x hm
          · simp at hm
            rw [hm]
            exact hop
        · intro x hx hxc
          dsimp only at hx ⊢
          rcases List.mem_append.mp hx with hm | hm
          · exact hInv.pay_confirmed_inv x hm hxc
          · simp at hm
            rw [hm] at hxc
            simp at hxc
        · intro x hx
          dsimp only at hx ⊢
          rw [confirmedSum_append, confirmedSum, confirmedSum]
          rw [if_neg (by simp)]
          simpa using hInv.paid_sum x hx
  | finalizePayment pid =>
      cases hfind : st.payments.find? (fun e2 => e2.snd.id = pid) with
      | none =>
          simp only [ValidOp, hfind] at hop
      | some e =>
          simp only [ValidOp, hfind] at hop
          obtain ⟨hconf, hsome⟩ := hop
          obtain ⟨inv, hinv⟩ := Option.isSome_iff_exists.mp hsome
          simp only [applyOp, mock_finalize_payment, hfind, hinv]
          by_cases hdec : inv.decimals ≤ 77
          · rw [if_pos hdec]
            by_cases hfull : inv.amount_raw ≤ (inv.paid_raw + e.snd.amount_raw) % U256_SIZE
            · rw [if_pos hfull]
              exact storeInv_finalize_aux st pid e inv _ hInv hfind hconf hinv rfl rfl
            · rw [if_neg hfull]
              exact storeInv_finalize_aux st pid e inv _ hInv hfind hconf hinv rfl rfl
          · rw [if_neg hdec]
            exact storeInv_finalize_aux st pid e inv _ hInv hfind hconf hinv rfl rfl
  | updatePaymentBlock pid b =>
      have hc : (mapGet pid st.payments).isSome = true := hop
      have hrw : applyOp st (StoreOp.updatePaymentBlock pid b)
          = { st with payments := mapSet pid (fun p => { p with block_number := b }) st.payments } := by
        simp [applyOp, mock_update_payment_block, hc]
      rw [hrw]
      exact storeInv_blockSet st pid b hInv
  | setInvoiceStatus u s =>
      by_cases hin : (mapGet u st.invoices).isSome = true
      · have hrw : applyOp st (StoreOp.setInvoiceStatus u s)
            = { st with invoices := mapSet u (fun i => { i with status := s }) st.invoices } := by
          simp [applyOp, mock_set_invoice_status, hin]
        rw [hrw]
        exact storeInv_invSet st u _ (fun i => rfl) (fun i => rfl) hInv
      · have hrw : applyOp st (StoreOp.setInvoiceStatus u s) = st := by
          simp [applyOp, mock_set_invoice_status, hin]
        rw [hrw]
        exact hInv

theorem storeInv_init : StoreInv mockInit := by
  refine ⟨?_, ?_, ?_, ?_, ?_, ?_, ?_⟩ <;> simp [mockInit]

theorem storeInv_run (st : MockState) (ops : List StoreOp)
    (hInv : StoreInv st) (hvalid : TraceValid st ops) : StoreInv (runOps st ops) := by
  induction ops generalizing st with
  | nil => exact hInv
  | cons op rest ih =>
      obtain ⟨hop, hrest⟩ := hvalid
      exact ih (applyOp st op) (storeInv_preserved st op hInv hop) hrest

/-- C2 (amended): after any sequence of store operations in which
invoices are inserted with `paid_raw = 0`, payment amounts are `U256`
values, and `finalize_payment` is applied only to payments that are
currently Confirming and whose invoice exists (as the confirmator behaves),
the `paid_raw` of every invoice equals the sum of `amount_raw` over its
Confirmed payment rows.  Without the Confirming restriction the equation
fails: `finalize_payment` has no status guard and double-credits. -/
theorem paid_sum_invariant (ops : List StoreOp) (h : TraceValid mockInit ops) :
    ∀ e ∈ (runOps mockInit ops).invoices,
      e.snd.paid_raw = confirmedSum e.snd.id (runOps mockInit ops).payments := by
  have hfin := storeInv_run mockInit ops storeInv_init h
  intro e he
  rw [← hfin.inv_key e he]
  exact hfin.paid_sum e he

/-- A well-behaved trace: create the invoice, record one 4-unit payment,
finalize it once. -/
def traceC2ok : List StoreOp :=
  [StoreOp.addInvoice invAb,
   StoreOp.addPaymentAttempt "inv-1" "0xf1" "0xAb" "0xh1" 4 100 "eth-test" 0,
   StoreOp.finalizePayment "uuid-0"]

/-- The same trace with `finalize_payment` repeated on the same payment
id. -/
def traceC2bad : List StoreOp := traceC2ok ++ [StoreOp.finalizePayment "uuid-0"]

/-- The invoice after the single finalization: 4 units credited. -/
def invC2fin : Invoice := { invAb with paid_raw := 4, paid := "4" }

/-- C2 counterexample: repeating `finalize_payment` on the same payment
id (explicitly included by the claim) double-credits: the
`paid_raw` of the invoice becomes 8 while its only Confirmed payment row sums to 4. -/
theorem paid_sum_counterexample :
    ((runOps mockInit traceC2bad).invoices.map (fun e => e.snd.paid_raw) = [8]) ∧
      confirmedSum "inv-1" (runOps mockInit traceC2bad).payments = 4 := by
  constructor <;> rfl

/-- C2 witness: on the three-operation trace the final state satisfies
the paid-sum equation, `4 = 4`. -/
theorem paid_sum_invariant_witness :
    ("inv-1", invC2fin) ∈ (runOps mockInit traceC2ok).invoices ∧
      invC2fin.paid_raw = confirmedSum invC2fin.id (runOps mockInit traceC2ok).payments := by
  have hvalid : TraceValid mockInit traceC2ok :=
    ⟨rfl, by show (4 : Nat) < U256_SIZE; norm_num [U256_SIZE], ⟨rfl, rfl⟩, trivial⟩
  have hmem : ("inv-1", invC2fin) ∈ (runOps mockInit traceC2ok).invoices := by
    simp only [show (runOps mockInit traceC2ok).invoices = [("inv-1", invC2fin)] from rfl]
    exact List.mem_singleton.mpr rfl
  exact ⟨hmem, paid_sum_invariant traceC2ok hvalid _ hmem⟩
